import Mathlib

/-!
Shallow embedding of `nestkernel/node_manager.cpp` (NEST NodeManager):
GID allocation and placement (`add_node`), the closed-form stepping
function `next_local_gid_`, node lookup (`get_node`,
`get_thread_siblings`), the lazy thread-local view cache
(`ensure_valid_thread_local_ids`), the preparation pass
(`prepare_nodes`) with per-thread exception capture, and state reset
(`reset_nodes_state`).

External collaborators (virtual-process topology, model registry,
sparse node array) are represented by explicit parameters; where their
behaviour matters it is modelled from the specification and marked as
such in the doc comment.  Machine integers (`index` = 64-bit unsigned)
are modelled as `Nat` with reduction modulo `2 ^ 64` exactly where the
C++ performs arithmetic that the overflow guard inspects.
-/

set_option autoImplicit false

namespace Nest

/-- Wrap-around bound of the C++ `index` type (64-bit unsigned). -/
def idxMod : Nat := 2 ^ 64

/-- One simulable unit (`Node`).  Numeric fields mirror the C++ node
attributes set by `NodeManager`; preparation failure and its message are
abstracted (`prep_fails`, `prep_msg`) because `init_buffers`/`calibrate`
are virtual methods of the external node classes.  Modelled from the
spec (section 3, "Node"). -/
structure BaseNode where
  gid : Nat := 0
  model_id : Int := 0
  thr : Nat := 0
  vp : Nat := 0
  has_proxies : Bool := false
  local_receiver : Bool := true
  frozen : Bool := false
  uses_wfr : Bool := false
  buffers_initialized : Bool := false
  calibrated : Bool := false
  thread_lid : Nat := 0
  prep_fails : Bool := false
  prep_msg : Nat := 0
  is_proxy : Bool := false
deriving Repr, DecidableEq, Inhabited

/-- A slot of the local node registry: a plain node has no thread
siblings, a `SiblingContainer` carries one replica per thread
(`num_thread_siblings() = siblings.length`). -/
structure Entry where
  base : BaseNode := {}
  siblings : List BaseNode := []
deriving Repr, DecidableEq, Inhabited

/-- Handle returned by `add_node`: the contiguous GID range
`[first, last]` for model `model_id` (C++ `GIDCollectionPrimitive`). -/
structure GIDCollectionPrimitive where
  first : Nat := 0
  last : Nat := 0
  model_id : Nat := 0
deriving Repr, DecidableEq, Inhabited

/-- Error taxonomy of the embedded operations.  `NullDereference`
denotes the undefined behaviour of calling a virtual method through a
null `Node*`. -/
inductive NestError where
  | UnknownModelID
  | BadProperty
  | OutOfMemory
  | UnknownNode
  | NoThreadSiblingsAvailable
  | NullDereference
deriving Repr, DecidableEq

/-- Exception captured in a per-thread slot during `prepare_nodes` and
re-raised after the parallel section; only the message is observable. -/
structure WrappedThreadException where
  msg : Nat := 0
deriving Repr, DecidableEq

/-- Decidable equality on fallible results, so that concrete runs can
be checked by evaluation. -/
instance {ε α : Type} [DecidableEq ε] [DecidableEq α] :
    DecidableEq (Except ε α) := fun a b =>
  match a, b with
  | .error e1, .error e2 =>
    if h : e1 = e2 then .isTrue (by rw [h]) else .isFalse (by intro hc; cases hc; exact h rfl)
  | .ok v1, .ok v2 =>
    if h : v1 = v2 then .isTrue (by rw [h]) else .isFalse (by intro hc; cases hc; exact h rfl)
  | .error _, .ok _ => .isFalse (by intro hc; cases hc)
  | .ok _, .error _ => .isFalse (by intro hc; cases hc)

/-- Modelled from the spec (section 4.2, Local Node Registry): an
append-only store of locally materialized entries plus the maximum GID
allocated anywhere (`SparseNodeArray`). -/
structure LocalNodes where
  nodes : List Entry := []
  max_gid : Nat := 0
deriving Repr, DecidableEq, Inhabited

/-- Modelled from the spec: append a locally materialized entry and
advance the max-GID bookkeeping. -/
def LocalNodes.add_local_node (r : LocalNodes) (e : Entry) : LocalNodes :=
  { nodes := r.nodes ++ [e], max_gid := Nat.max r.max_gid e.base.gid }

/-- Modelled from the spec: record a GID owned by another process,
advancing only the max-GID bookkeeping. -/
def LocalNodes.add_remote_node (r : LocalNodes) (gid : Nat) : LocalNodes :=
  { r with max_gid := Nat.max r.max_gid gid }

/-- Modelled from the spec: the locally materialized entry for a GID,
or `none` when the GID is absent or owned by another process. -/
def LocalNodes.get_node_by_gid (r : LocalNodes) (gid : Nat) : Option Entry :=
  r.nodes.find? (fun e => e.base.gid == gid)

/-- Modelled from the spec: number of locally materialized entries. -/
def LocalNodes.size (r : LocalNodes) : Nat := r.nodes.length

/-- Capability flags the allocator reads off a model
(`Model::has_proxies` and friends). -/
structure ModelFlags where
  potential_global_receiver : Bool := false
  has_proxies : Bool := false
  one_node_per_process : Bool := false
  is_off_grid : Bool := false
deriving Repr, DecidableEq, Inhabited

/-- The external collaborators `add_node` consults: the model registry
(model count, capability flags, allocation template, proxy factory) and
the virtual-process topology service (thread count, MPI rank and
process counts, placement functions).  All are out of scope of the
core and enter as explicit parameters. -/
structure Kernel where
  num_node_models : Nat
  flags : Nat → ModelFlags
  allocate : Nat → Nat → BaseNode
  proxy_node : Int → Nat → BaseNode
  n_threads : Nat
  rank : Nat
  num_sim_procs : Nat
  num_rec_procs : Nat
  suggest_vp : Nat → Nat
  suggest_rec_vp : Nat → Nat
  vp_to_thread : Nat → Nat
  thread_to_vp : Nat → Nat
  is_local_vp : Nat → Bool
  max_size : Nat

/-- Modelled from the spec (sections 2 and 6): well-formedness of the
external topology service.  Placement is round-robin, so a suggested
virtual process is local exactly when the calling rank is a simulation
rank and the GID is congruent to it modulo the simulation-process
count. -/
structure TopoOk (K : Kernel) : Prop where
  sim_pos : 0 < K.num_sim_procs
  thr_pos : 0 < K.n_threads
  local_iff : ∀ g, K.is_local_vp (K.suggest_vp g) =
    (decide (K.rank < K.num_sim_procs) && decide (g % K.num_sim_procs = K.rank))

/-- `NodeManager::next_local_gid_`: closed-form step to the next GID
owned by the calling rank (translated line for line from the source). -/
def next_local_gid (K : Kernel) (curr_gid : Nat) : Nat :=
  if K.num_sim_procs ≤ K.rank then
    curr_gid + K.num_sim_procs
  else
    let proc_of_curr_gid := curr_gid % K.num_sim_procs
    if proc_of_curr_gid = K.rank then
      curr_gid + K.num_sim_procs
    else
      curr_gid + (K.num_sim_procs + K.rank - proc_of_curr_gid) % K.num_sim_procs

/-- Two distinct numbers in the same residue class differ by at least
the modulus. -/
theorem cong_gap {sp r a b : Nat} (_hsp : 0 < sp) (ha : a % sp = r)
    (hb : b % sp = r) (h : a < b) : a + sp ≤ b := by
  have hda := Nat.div_add_mod a sp
  have hdb := Nat.div_add_mod b sp
  have hdiv : a / sp < b / sp := by
    by_contra hle
    push_neg at hle
    have : b ≤ a := by
      calc b = sp * (b / sp) + b % sp := hdb.symm
        _ ≤ sp * (a / sp) + a % sp := by
            have := Nat.mul_le_mul_left sp hle
            omega
        _ = a := hda
    omega
  have hstep : sp * (a / sp + 1) ≤ sp * (b / sp) := Nat.mul_le_mul_left sp hdiv
  have hdistr : sp * (a / sp + 1) = sp * (a / sp) + sp := by ring
  omega

/-- Key arithmetic fact about `next_local_gid` on a simulation rank:
the result is the least GID strictly above the argument that is
congruent to the rank modulo the simulation-process count. -/
theorem next_local_gid_least (K : Kernel) (g : Nat)
    (hr : K.rank < K.num_sim_procs) :
    g < next_local_gid K g ∧
    next_local_gid K g % K.num_sim_procs = K.rank ∧
    ∀ g', g < g' → g' % K.num_sim_procs = K.rank → next_local_gid K g ≤ g' := by
  have hsp : 0 < K.num_sim_procs := Nat.lt_of_le_of_lt (Nat.zero_le _) hr
  set sp := K.num_sim_procs with hspdef
  set rk := K.rank with hrkdef
  have hnotrec : ¬ sp ≤ rk := Nat.not_le_of_lt hr
  set p := g % sp with hpdef
  have hplt : p < sp := Nat.mod_lt _ hsp
  by_cases hpr : p = rk
  · -- the argument is already owned by the calling rank
    have hval : next_local_gid K g = g + sp := by
      unfold next_local_gid
      simp only [← hspdef, ← hrkdef, ← hpdef, hnotrec, if_false, hpr, if_true, if_neg]
    refine ⟨by omega, ?_, ?_⟩
    · rw [hval, Nat.add_mod_right, ← hpdef, hpr]
    · intro g' hgt hg'
      rw [hval]
      exact cong_gap hsp (hpr ▸ hpdef.symm) hg' hgt
  · -- the argument belongs to another rank: add the positive residue gap
    have hval : next_local_gid K g = g + (sp + rk - p) % sp := by
      unfold next_local_gid
      simp only [← hspdef, ← hrkdef, ← hpdef, hnotrec, if_false, hpr]
    set d := (sp + rk - p) % sp with hddef
    have hdlt : d < sp := Nat.mod_lt _ hsp
    have hdval : d = if p < rk then rk - p else sp + rk - p := by
      rw [hddef]
      by_cases hc : p < rk
      · have : sp + rk - p = sp + (rk - p) := by omega
        rw [this, Nat.add_mod_left, if_pos hc, Nat.mod_eq_of_lt (by omega)]
      · rw [if_neg hc, Nat.mod_eq_of_lt (by omega)]
    have hdpos : 0 < d := by
      rcases Nat.lt_or_ge p rk with hc | hc
      · rw [hdval, if_pos hc]; omega
      · have hlt : p ≠ rk := hpr
        rw [hdval, if_neg (by omega)]; omega
    have hmod : (g + d) % sp = rk := by
      conv_lhs => rw [← Nat.div_add_mod g sp]
      rw [Nat.add_assoc, Nat.mul_add_mod]
      rcases Nat.lt_or_ge p rk with hc | hc
      · rw [← hpdef, hdval, if_pos hc]
        have : p + (rk - p) = rk := by omega
        rw [this, Nat.mod_eq_of_lt hr]
      · rw [← hpdef, hdval, if_neg (by omega)]
        have : p + (sp + rk - p) = sp + rk := by omega
        rw [this, Nat.add_comm sp rk, Nat.add_mod_right, Nat.mod_eq_of_lt hr]
    refine ⟨by rw [hval]; omega, by rw [hval]; exact hmod, ?_⟩
    -- minimality: no GID in (g, g + d) is congruent to the rank
    intro g' hgt hg'
    rw [hval]
    by_contra hlt
    push_neg at hlt
    set e := g' - g with hedef
    have hepos : 0 < e := by omega
    have helt : e < d := by omega
    have hg'eq : g' = g + e := by omega
    have hmode : (g + e) % sp = (p + e) % sp := by
      conv_lhs => rw [← Nat.div_add_mod g sp]
      rw [Nat.add_assoc, Nat.mul_add_mod, hpdef]
    rw [hg'eq, hmode] at hg'
    rcases Nat.lt_or_ge p rk with hc | hc
    · -- d = rk - p, so p + e < rk < sp: the residue is p + e ≠ rk
      have hde : d = rk - p := by rw [hdval, if_pos hc]
      have hlt2 : p + e < rk := by omega
      rw [Nat.mod_eq_of_lt (by omega)] at hg'
      omega
    · -- d = sp + rk - p: the residue is either p + e or p + e - sp
      have hde : d = sp + rk - p := by
        rw [hdval, if_neg (by omega)]
      have hbound : p + e < sp + rk := by omega
      rcases Nat.lt_or_ge (p + e) sp with hsmall | hbig
      · rw [Nat.mod_eq_of_lt hsmall] at hg'
        omega
      · have hsub : (p + e) % sp = p + e - sp := by
          have h1 : p + e - sp < sp := by omega
          have h2 : p + e = (p + e - sp) + sp := by omega
          calc (p + e) % sp = ((p + e - sp) + sp) % sp := by rw [← h2]
            _ = (p + e - sp) % sp := Nat.add_mod_right _ _
            _ = p + e - sp := Nat.mod_eq_of_lt h1
        rw [hsub] at hg'
        omega

/-- Node created in the global-receiver branch of `add_node`: allocated
from the model pool for thread `t`, then `set_gid_`, `set_model_id`,
`set_thread`, `set_vp`, `set_has_proxies(true)`,
`set_local_receiver(false)`. -/
def gsd_node (K : Kernel) (mod gid t vp : Nat) : Entry :=
  { base := { K.allocate mod t with
      gid := gid, model_id := (mod : Int), thr := t, vp := vp,
      has_proxies := true, local_receiver := false } }

/-- Node created in the `has_proxies` branch of `add_node`. -/
def proxies_node (K : Kernel) (mod gid t vp : Nat) : Entry :=
  { base := { K.allocate mod t with
      gid := gid, model_id := (mod : Int), thr := t, vp := vp } }

/-- Per-thread replica created inside a `SiblingContainer`: same GID on
every thread, `set_vp(thread_to_vp(t))`. -/
def sibling_member (K : Kernel) (mod gid t : Nat) : BaseNode :=
  { K.allocate mod t with
      gid := gid, model_id := (mod : Int), thr := t, vp := K.thread_to_vp t }

/-- `SiblingContainer` built in the proxy-less replicated branch: the
wrapper is allocated from the sibling-container model (model index 0)
on the thread the placement function picks, marked with pseudo model id
`-1`, and filled with one replica per thread. -/
def mkSiblingEntry (K : Kernel) (mod gid : Nat) : Entry :=
  let thread_id := K.vp_to_thread (K.suggest_vp gid)
  { base := { K.allocate 0 thread_id with gid := gid, model_id := -1 },
    siblings := (List.range K.n_threads).map (sibling_member K mod gid) }

/-- Node created in the one-instance-per-process branch: always thread
0, `set_vp(thread_to_vp(0))`. -/
def mkMusicEntry (K : Kernel) (mod gid : Nat) : Entry :=
  { base := { K.allocate mod 0 with
      gid := gid, model_id := (mod : Int), thr := 0, vp := K.thread_to_vp 0 } }

/-- The loop of the global-receiver branch: every GID of the range is
placed via `suggest_rec_vp` on the running `n_gsd` counter and recorded
locally or as a remote marker; the counter advances once per GID. -/
def gsd_loop (K : Kernel) (mod : Nat) :
    List Nat → LocalNodes × Nat → LocalNodes × Nat
  | [], acc => acc
  | gid :: rest, (reg, ngsd) =>
    let vp := K.suggest_rec_vp ngsd
    let t := K.vp_to_thread vp
    if K.is_local_vp vp then
      gsd_loop K mod rest (reg.add_local_node (gsd_node K mod gid t vp), ngsd + 1)
    else
      gsd_loop K mod rest (reg.add_remote_node gid, ngsd + 1)

/-- The `while ( gid < max_gid )` loop of the `has_proxies` branch.
`fuel` bounds the iteration count; `max_gid - gid` iterations suffice
because every step advances `gid` by at least one as soon as there is
at least one simulation process. -/
def proxies_loop (K : Kernel) (mod max_gid : Nat) :
    Nat → Nat → LocalNodes → LocalNodes
  | 0, _, reg => reg
  | fuel + 1, gid, reg =>
    if gid < max_gid then
      let vp := K.suggest_vp gid
      let t := K.vp_to_thread vp
      if K.is_local_vp vp then
        proxies_loop K mod max_gid fuel (next_local_gid K gid)
          (reg.add_local_node (proxies_node K mod gid t vp))
      else
        proxies_loop K mod max_gid fuel (gid + 1) reg
    else reg

/-- State owned by `NodeManager` (construction-time fields only; the
logging stream, model-range map and off-grid flag live in external
managers). -/
structure NodeManager where
  local_nodes : LocalNodes := {}
  n_gsd : Nat := 0
  nodes_vec : List (List BaseNode) := []
  wfr_nodes_vec : List (List BaseNode) := []
  wfr_is_used : Bool := false
  nodes_vec_network_size : Nat := 0
  num_active_nodes : Nat := 0
deriving Repr, DecidableEq, Inhabited

/-- Modelled from the spec: the registry size `NodeManager::size()`
compares against `nodes_vec_network_size_` (the node count recorded at
the last view-cache rebuild). -/
def NodeManager.size (st : NodeManager) : Nat := st.local_nodes.size

/-- First GID of the range `add_node` reserves
(`local_nodes_.get_max_gid() + 1`, 64-bit arithmetic). -/
def add_min_gid (st : NodeManager) : Nat :=
  (st.local_nodes.max_gid + 1) % idxMod

/-- One-past-the-end GID of the range `add_node` reserves
(`min_gid + n`, 64-bit arithmetic). -/
def add_max_gid (st : NodeManager) (n : Int) : Nat :=
  (add_min_gid st + n.toNat) % idxMod

/-- The starting GID of the `has_proxies` population loop: `min_gid`
itself when it is local, otherwise the first local GID after it. -/
def proxies_start (K : Kernel) (st : NodeManager) : Nat :=
  if K.is_local_vp (K.suggest_vp (add_min_gid st)) then add_min_gid st
  else next_local_gid K (add_min_gid st)

/-- `NodeManager::add_node`: validate the model id and the count,
reserve the contiguous GID range `[min_gid, max_gid)` (indices computed
in 64-bit arithmetic, with the out-of-memory guard), then distribute
instances according to the model's capability flags.  Pool reservation
calls, the deprecation warning, the model-range map update and the
off-grid flag are external side effects without observable state
here. -/
def add_node (K : Kernel) (st : NodeManager) (mod : Nat) (n : Int) :
    Except NestError (NodeManager × GIDCollectionPrimitive) :=
  if K.num_node_models ≤ mod then
    .error .UnknownModelID
  else if n < 1 then
    .error .BadProperty
  else if add_max_gid st n > K.max_size ∨ add_max_gid st n < add_min_gid st then
    .error .OutOfMemory
  else if (K.flags mod).potential_global_receiver ∧ 0 < K.num_rec_procs then
    .ok ({ st with
        local_nodes := (gsd_loop K mod
          (List.range' (add_min_gid st) (add_max_gid st n - add_min_gid st))
          (st.local_nodes, st.n_gsd)).1
        n_gsd := (gsd_loop K mod
          (List.range' (add_min_gid st) (add_max_gid st n - add_min_gid st))
          (st.local_nodes, st.n_gsd)).2 },
      { first := add_min_gid st, last := add_max_gid st n - 1, model_id := mod })
  else if (K.flags mod).has_proxies then
    .ok ({ st with
        local_nodes :=
          if K.is_local_vp (K.suggest_vp (add_max_gid st n - 1)) then
            proxies_loop K mod (add_max_gid st n)
              (add_max_gid st n - proxies_start K st) (proxies_start K st)
              st.local_nodes
          else
            (proxies_loop K mod (add_max_gid st n)
              (add_max_gid st n - proxies_start K st) (proxies_start K st)
              st.local_nodes).add_remote_node (add_max_gid st n - 1) },
      { first := add_min_gid st, last := add_max_gid st n - 1, model_id := mod })
  else if ¬ (K.flags mod).one_node_per_process then
    .ok ({ st with
        local_nodes := (List.range' (add_min_gid st) (add_max_gid st n - add_min_gid st)).foldl
          (fun r gid => r.add_local_node (mkSiblingEntry K mod gid)) st.local_nodes },
      { first := add_min_gid st, last := add_max_gid st n - 1, model_id := mod })
  else
    .ok ({ st with
        local_nodes := (List.range' (add_min_gid st) (add_max_gid st n - add_min_gid st)).foldl
          (fun r gid => r.add_local_node (mkMusicEntry K mod gid)) st.local_nodes },
      { first := add_min_gid st, last := add_max_gid st n - 1, model_id := mod })

/-- `NodeManager::get_node`: a GID that is not locally materialized
yields a proxy from the model registry; a plain local node is returned
as is, ignoring the thread argument; a sibling container demands a
thread index within its replica range. -/
def get_node (K : Kernel) (reg : LocalNodes) (gid : Nat) (thr : Int) :
    Except NestError BaseNode :=
  match reg.get_node_by_gid gid with
  | none => .ok (K.proxy_node thr gid)
  | some e =>
    if e.siblings.length = 0 then
      .ok e.base
    else if thr < 0 ∨ (e.siblings.length : Int) ≤ thr then
      .error .UnknownNode
    else
      .ok (e.siblings.getD thr.toNat default)

/-- `NodeManager::get_thread_siblings`: the source dereferences the
registry lookup without a null check, so an absent GID is a null
`Node*` dereference (undefined behaviour), modelled as
`NullDereference`; a plain local node raises
`NoThreadSiblingsAvailable`; a container is returned. -/
def get_thread_siblings (reg : LocalNodes) (gid : Nat) :
    Except NestError (List BaseNode) :=
  match reg.get_node_by_gid gid with
  | none => .error .NullDereference
  | some e =>
    if e.siblings.length = 0 then
      .error .NoThreadSiblingsAvailable
    else
      .ok e.siblings

/-- One pass of the view-cache rebuild for worker `t`, accumulating the
ordered local-node list and the waveform-relaxation subset.  A sibling
container contributes its replica for `t` (with the thread-local index
set to the list position); a plain node contributes only on its owning
thread, and only plain nodes enter the relaxation subset. -/
def build_thread_aux (t : Nat) :
    List Entry → List BaseNode → List BaseNode → List BaseNode × List BaseNode
  | [], acc, accw => (acc, accw)
  | e :: rest, acc, accw =>
    if 0 < e.siblings.length then
      build_thread_aux t rest
        (acc ++ [{ e.siblings.getD t default with thread_lid := acc.length }]) accw
    else if e.base.thr = t then
      let b := { e.base with thread_lid := acc.length }
      build_thread_aux t rest (acc ++ [b])
        (if e.base.uses_wfr then accw ++ [b] else accw)
    else
      build_thread_aux t rest acc accw

/-- Thread-local index assignment for the replicas of one container:
replica `t` receives the current size of worker `t`'s list (the rebuild
mutates the registry nodes through the pointers it collects). -/
def set_sib_lids (counts : List Nat) : Nat → List BaseNode → List BaseNode
  | _, [] => []
  | t, s :: rest =>
    (if t < counts.length then { s with thread_lid := counts.getD t 0 } else s)
      :: set_sib_lids counts (t + 1) rest

/-- Mirror of the registry-side effect of the rebuild: walking the
entries in index order while counting, per worker, how many pointers
have been collected, and stamping that count into each collected node
as its thread-local index. -/
def assign_lids_go (counts : List Nat) : List Entry → List Entry
  | [] => []
  | e :: rest =>
    if 0 < e.siblings.length then
      { e with siblings := set_sib_lids counts 0 e.siblings }
        :: assign_lids_go (counts.map (· + 1)) rest
    else if e.base.thr < counts.length then
      { e with base := { e.base with thread_lid := counts.getD e.base.thr 0 } }
        :: assign_lids_go (counts.set e.base.thr (counts.getD e.base.thr 0 + 1)) rest
    else
      e :: assign_lids_go counts rest

/-- Registry entries after a view-cache rebuild over `nt` workers. -/
def assign_lids (nt : Nat) (l : List Entry) : List Entry :=
  assign_lids_go (List.replicate nt 0) l

/-- `NodeManager::ensure_valid_thread_local_ids`: rebuild the per-worker
view lists only when the registry size differs from the size recorded
at the last rebuild (the double-checked guard of the critical section
collapses to this single test in a sequential denotation). -/
def ensure_valid_thread_local_ids (K : Kernel) (st : NodeManager) : NodeManager :=
  if st.size = st.nodes_vec_network_size then st
  else
    let reg := st.local_nodes.nodes
    let built := (List.range K.n_threads).map (fun t => build_thread_aux t reg [] [])
    let reg2 := assign_lids K.n_threads reg
    { st with
      local_nodes := { st.local_nodes with nodes := reg2 },
      nodes_vec := built.map (fun p => p.1),
      wfr_nodes_vec := built.map (fun p => p.2),
      nodes_vec_network_size := reg2.length,
      wfr_is_used := built.any (fun p => ! p.2.isEmpty) }

/-- `NodeManager::prepare_node_` (`init_buffers` then `calibrate`);
whether the virtual calls of the external node class raise is abstracted
into the node's `prep_fails` flag, the message into `prep_msg`. -/
def prepare_node (nd : BaseNode) : Except Nat BaseNode :=
  if nd.prep_fails then .error nd.prep_msg
  else .ok { nd with buffers_initialized := true, calibrated := true }

/-- One worker's partition of the prepare pass: nodes are prepared in
list order inside a single try block, so the first failure aborts the
rest of that partition; the failure is captured in the worker's slot.
Returns the updated partition, the captured failure and the count of
active (non-frozen) prepared nodes contributed to the reduction. -/
def prepare_partition : List BaseNode → List BaseNode × Option WrappedThreadException × Nat
  | [] => ([], none, 0)
  | nd :: rest =>
    match prepare_node nd with
    | .error m => (nd :: rest, some { msg := m }, 0)
    | .ok nd2 =>
      let r := prepare_partition rest
      (nd2 :: r.1, r.2.1, (if nd2.frozen then 0 else 1) + r.2.2)

/-- All partitions after the prepare pass (every worker's loop runs to
completion regardless of failures on other workers). -/
def prepared_vec (st : NodeManager) : List (List BaseNode) :=
  st.nodes_vec.map (fun l => (prepare_partition l).1)

/-- The per-worker failure slots that are occupied after the pass, in
worker order. -/
def prepare_exceptions (st : NodeManager) : List WrappedThreadException :=
  (st.nodes_vec.map (fun l => (prepare_partition l).2.1)).reduceOption

/-- The active-node reduction over all workers. -/
def prepare_active (st : NodeManager) : Nat :=
  (st.nodes_vec.map (fun l => (prepare_partition l).2.2)).sum

/-- `NodeManager::prepare_nodes`: every worker runs its partition to
completion (captured failures do not cross the parallel boundary); the
coordinator then re-raises the first captured failure in worker order,
wrapped, and publishes the active-node count only when no failure was
captured. -/
def prepare_nodes (st : NodeManager) :
    NodeManager × Option WrappedThreadException :=
  match (prepare_exceptions st).head? with
  | some w => ({ st with nodes_vec := prepared_vec st }, some { msg := w.msg })
  | none =>
    ({ st with
        nodes_vec := prepared_vec st
        num_active_nodes := prepare_active st }, none)

/-- `NodeManager::reset_nodes_state`: reset state on every local node
(the internal dynamic state reset `init_state` is external), forcing
buffer re-initialization; replicas inside a pseudo-container (model id
`-1`) are unwrapped. -/
def reset_entry (e : Entry) : Entry :=
  if e.siblings.length = 0 then
    { e with base := { e.base with buffers_initialized := false } }
  else if e.base.model_id = -1 then
    let reset_sib := fun (s : BaseNode) => { s with buffers_initialized := false }
    { e with siblings := e.siblings.map reset_sib }
  else e

/-- The iteration of `reset_nodes_state` over the registry. -/
def reset_nodes_state (st : NodeManager) : NodeManager :=
  { st with local_nodes :=
      { st.local_nodes with nodes := st.local_nodes.nodes.map reset_entry } }

/-- Modelled from the spec (sections 2 and 6): the concrete round-robin
topology service — virtual process of a GID is the GID modulo the total
number of simulation virtual processes, simulation virtual processes
interleave ranks, recording virtual processes follow them.  Used to
instantiate the abstract `Kernel` in concrete runs. -/
def roundRobin (nmodels : Nat) (fl : Nat → ModelFlags)
    (sp rp nt rank maxsz : Nat) : Kernel where
  num_node_models := nmodels
  flags := fl
  allocate := fun _ _ => {}
  proxy_node := fun _ g => { gid := g, is_proxy := true }
  n_threads := nt
  rank := rank
  num_sim_procs := sp
  num_rec_procs := rp
  suggest_vp := fun g => g % (sp * nt)
  suggest_rec_vp := fun k => sp * nt + k % (rp * nt)
  vp_to_thread := fun vp => if vp < sp * nt then vp / sp else (vp - sp * nt) / rp
  thread_to_vp := fun t =>
    if rank < sp then t * sp + rank else sp * nt + t * rp + (rank - sp)
  is_local_vp := fun vp =>
    if vp < sp * nt then vp % sp == rank else sp + (vp - sp * nt) % rp == rank
  max_size := maxsz

/-- The round-robin topology satisfies the well-formedness contract. -/
theorem roundRobin_topoOk (nmodels : Nat) (fl : Nat → ModelFlags)
    (sp rp nt rank maxsz : Nat) (hsp : 0 < sp) (hnt : 0 < nt) :
    TopoOk (roundRobin nmodels fl sp rp nt rank maxsz) := by
  refine ⟨hsp, hnt, ?_⟩
  intro g
  show (if g % (sp * nt) < sp * nt then g % (sp * nt) % sp == rank
      else sp + (g % (sp * nt) - sp * nt) % rp == rank) =
    (decide (rank < sp) && decide (g % sp = rank))
  have hpos : 0 < sp * nt := Nat.mul_pos hsp hnt
  rw [if_pos (Nat.mod_lt _ hpos), Nat.mod_mod_of_dvd g ⟨nt, rfl⟩]
  by_cases hr : rank < sp
  · by_cases he : g % sp = rank
    · simp [hr, he]
    · simp [hr, he]
  · have hlt : g % sp < sp := Nat.mod_lt _ hsp
    have hne : ¬ (g % sp = rank) := by omega
    simp [hr, hne]

/-! ### Helper lemmas -/

/-- Unfolding of the locality test through the topology contract. -/
theorem TopoOk.local_suggest_iff {K : Kernel} (hK : TopoOk K) (g : Nat) :
    K.is_local_vp (K.suggest_vp g) = true ↔
      (K.rank < K.num_sim_procs ∧ g % K.num_sim_procs = K.rank) := by
  rw [hK.local_iff]
  simp

/-- On a non-simulation rank the locality test always fails. -/
theorem TopoOk.local_suggest_false {K : Kernel} (hK : TopoOk K)
    (hr : K.num_sim_procs ≤ K.rank) (g : Nat) :
    K.is_local_vp (K.suggest_vp g) = false := by
  rw [hK.local_iff]
  simp [Nat.not_lt_of_le hr]

/-- The maximum of two naturals is the second when it dominates. -/
theorem nat_max_right {a b : Nat} (h : a ≤ b) : Nat.max a b = b := by
  simp only [Nat.max_def]
  split
  · rfl
  · omega

/-- Absorption for a three-way maximum: a middle element dominated by
the last one can be dropped. -/
theorem max_insert (r g m : Nat) (h : g ≤ m) :
    Nat.max (Nat.max r g) m = Nat.max r m := by
  simp only [Nat.max_def]
  repeat' split
  all_goals omega

/-- Folding `Nat.max` over a contiguous range takes the maximum of the
seed and the last element. -/
theorem fold_max_range' (c : Nat) : ∀ s a : Nat,
    List.foldl Nat.max a (List.range' s c) =
      if c = 0 then a else Nat.max a (s + c - 1) := by
  induction c with
  | zero => intro s a; simp
  | succ c ih =>
    intro s a
    rw [List.range'_succ, List.foldl_cons, ih]
    by_cases hc : c = 0
    · simp [hc]
    · rw [if_neg hc, if_neg (Nat.succ_ne_zero c)]
      have h1 : s + 1 + c - 1 = s + c := by omega
      have h2 : s + (c + 1) - 1 = s + c := by omega
      rw [h1, h2, max_insert a s (s + c) (Nat.le_add_right s c)]

/-- A fold of `add_local_node` over a list of GIDs appends one entry per
GID and folds the maximum bookkeeping, provided the builder stamps the
GID into the entry. -/
theorem fold_add_local (f : Nat → Entry) (hf : ∀ g, (f g).base.gid = g) :
    ∀ (gids : List Nat) (reg : LocalNodes),
      gids.foldl (fun r gid => r.add_local_node (f gid)) reg =
        { nodes := reg.nodes ++ gids.map f,
          max_gid := gids.foldl Nat.max reg.max_gid } := by
  intro gids
  induction gids with
  | nil => intro reg; simp
  | cons g rest ih =>
    intro reg
    rw [List.foldl_cons, ih, List.foldl_cons]
    simp [LocalNodes.add_local_node, hf g]

/-- The global-receiver loop touches the max-GID bookkeeping at every
GID of its list, locally or remotely. -/
theorem gsd_loop_max (K : Kernel) (mod : Nat) : ∀ (gids : List Nat)
    (reg : LocalNodes) (k : Nat),
    (gsd_loop K mod gids (reg, k)).1.max_gid =
      gids.foldl Nat.max reg.max_gid := by
  intro gids
  induction gids with
  | nil => intro reg k; simp [gsd_loop]
  | cons g rest ih =>
    intro reg k
    rw [gsd_loop, List.foldl_cons]
    by_cases hl : K.is_local_vp (K.suggest_rec_vp k)
    · rw [if_pos hl, ih]
      simp [LocalNodes.add_local_node, gsd_node]
    · rw [if_neg hl, ih]
      simp [LocalNodes.add_remote_node]

/-- The `has_proxies` loop never decreases the max-GID bookkeeping. -/
theorem proxies_loop_mono (K : Kernel) (mod max_gid : Nat) : ∀ (fuel gid : Nat)
    (reg : LocalNodes),
    reg.max_gid ≤ (proxies_loop K mod max_gid fuel gid reg).max_gid := by
  intro fuel
  induction fuel with
  | zero => intro gid reg; simp [proxies_loop]
  | succ fuel ih =>
    intro gid reg
    rw [proxies_loop]
    by_cases hlt : gid < max_gid
    · rw [if_pos hlt]
      by_cases hl : K.is_local_vp (K.suggest_vp gid)
      · rw [if_pos hl]
        refine le_trans ?_ (ih _ _)
        simp [LocalNodes.add_local_node]
      · rw [if_neg hl]; exact ih _ _
    · rw [if_neg hlt]

/-- The `has_proxies` loop only records GIDs strictly below the range
bound, so its max-GID result is capped by `max_gid - 1`. -/
theorem proxies_loop_upper (K : Kernel) (mod max_gid : Nat) : ∀ (fuel gid : Nat)
    (reg : LocalNodes),
    (proxies_loop K mod max_gid fuel gid reg).max_gid ≤
      Nat.max reg.max_gid (max_gid - 1) := by
  intro fuel
  induction fuel with
  | zero => intro gid reg; exact Nat.le_max_left _ _
  | succ fuel ih =>
    intro gid reg
    simp only [proxies_loop]
    by_cases hlt : gid < max_gid
    · rw [if_pos hlt]
      by_cases hl : K.is_local_vp (K.suggest_vp gid)
      · rw [if_pos hl]
        refine le_trans (ih _ _) ?_
        simp only [LocalNodes.add_local_node, proxies_node]
        rw [max_insert reg.max_gid gid (max_gid - 1) (by omega)]
      · rw [if_neg hl]; exact ih _ _
    · rw [if_neg hlt]; exact Nat.le_max_left _ _

/-- On a rank for which no suggested virtual process is local, the
`has_proxies` loop leaves the registry untouched. -/
theorem proxies_loop_nonlocal (K : Kernel) (mod max_gid : Nat)
    (hnl : ∀ g, K.is_local_vp (K.suggest_vp g) = false) : ∀ (fuel gid : Nat)
    (reg : LocalNodes),
    proxies_loop K mod max_gid fuel gid reg = reg := by
  intro fuel
  induction fuel with
  | zero => intro gid reg; rfl
  | succ fuel ih =>
    intro gid reg
    simp only [proxies_loop]
    by_cases hlt : gid < max_gid
    · rw [if_pos hlt, hnl gid]
      simp only [Bool.false_eq_true, if_false]
      exact ih _ _
    · rw [if_neg hlt]

/-- On a simulation rank, if the last GID of the range is owned by the
calling rank, the loop reaches it: starting from any owned GID within
the range, the max-GID result is at least `max_gid - 1`. -/
theorem proxies_loop_reaches_last (K : Kernel) (mod max_gid : Nat)
    (hK : TopoOk K) (hr : K.rank < K.num_sim_procs)
    (hlast : (max_gid - 1) % K.num_sim_procs = K.rank) (hmg : 1 ≤ max_gid) :
    ∀ (fuel gid : Nat) (reg : LocalNodes), max_gid ≤ gid + fuel →
      gid % K.num_sim_procs = K.rank → gid ≤ max_gid - 1 →
      max_gid - 1 ≤ (proxies_loop K mod max_gid fuel gid reg).max_gid := by
  intro fuel
  induction fuel with
  | zero => intro gid reg hfuel hgid hle; omega
  | succ fuel ih =>
    intro gid reg hfuel hgid hle
    have hlt : gid < max_gid := by omega
    have hloc : K.is_local_vp (K.suggest_vp gid) = true :=
      (hK.local_suggest_iff gid).mpr ⟨hr, hgid⟩
    simp only [proxies_loop]
    rw [if_pos hlt, hloc, if_pos rfl]
    set reg2 := reg.add_local_node
      (proxies_node K mod gid (K.vp_to_thread (K.suggest_vp gid)) (K.suggest_vp gid))
      with hreg2
    have hreg2max : gid ≤ reg2.max_gid := by
      rw [hreg2]; simp [LocalNodes.add_local_node, proxies_node]
    rcases Nat.eq_or_lt_of_le hle with heq | hlt2
    · -- the last GID itself was just recorded
      refine le_trans ?_ (proxies_loop_mono K mod max_gid fuel _ reg2)
      omega
    · -- step to the next owned GID, still within the range
      have hnext : next_local_gid K gid = gid + K.num_sim_procs := by
        unfold next_local_gid
        rw [if_neg (Nat.not_le_of_lt hr), if_pos hgid]
      have hstep : gid + K.num_sim_procs ≤ max_gid - 1 :=
        cong_gap (by omega) hgid hlast hlt2
      have hmod : (gid + K.num_sim_procs) % K.num_sim_procs = K.rank := by
        rw [Nat.add_mod_right]; exact hgid
      rw [hnext]
      exact ih (gid + K.num_sim_procs) reg2 (by omega) hmod hstep

/-! ### Concrete topologies and states used to exercise the theorems -/

/-- Model table used in concrete runs: model 1 has proxies, model 2 is
a potential global receiver, model 3 is a one-instance-per-process
proxy, every other model is a plain proxy-less device. -/
def exFlags : Nat → ModelFlags := fun m =>
  if m = 1 then { has_proxies := true }
  else if m = 2 then { potential_global_receiver := true }
  else if m = 3 then { one_node_per_process := true }
  else {}

/-- Concrete round-robin kernel with nine models and a capacity of one
thousand GIDs. -/
def exK (sp rp nt rank : Nat) : Kernel := roundRobin 9 exFlags sp rp nt rank 1000

/-- Registry holding a single plain local node with GID one. -/
def exPlainReg : LocalNodes :=
  { nodes := [{ base := { gid := 1, model_id := 4, thr := 0, vp := 0 } }], max_gid := 1 }

/-- The sibling container produced for GID 1 of a proxy-less model on a
single-process, two-thread topology. -/
def exSibEntry : Entry := mkSiblingEntry (exK 1 0 2 0) 5 1

/-- Registry holding only that container. -/
def exSibReg : LocalNodes := { nodes := [exSibEntry], max_gid := 1 }

/-! ### Claims -/

/-- C2.  On a pure recording rank (`rank ≥ num_sim_procs`),
`next_local_gid_(g)` is `g` plus the simulation-process count; on a
simulation rank it is the smallest GID strictly greater than `g`
congruent to the rank modulo the simulation-process count — hence every
GID the `has_proxies` allocation loop steps to stays in the locally
owned congruence class. -/
theorem next_local_gid_spec (K : Kernel) (g : Nat) :
    (K.num_sim_procs ≤ K.rank →
      next_local_gid K g = g + K.num_sim_procs) ∧
    (K.rank < K.num_sim_procs →
      g < next_local_gid K g ∧
      next_local_gid K g % K.num_sim_procs = K.rank ∧
      ∀ g2, g < g2 → g2 % K.num_sim_procs = K.rank → next_local_gid K g ≤ g2) := by
  constructor
  · intro hr
    unfold next_local_gid
    rw [if_pos hr]
  · intro hr
    exact next_local_gid_least K g hr

/-- Witness for C2: on rank 0 of 2 simulation processes the step from
GID 5 lands on 6, the next GID owned by rank 0; on a recording rank the
step adds the simulation-process count. -/
theorem next_local_gid_spec_witness :
    next_local_gid (exK 2 0 1 0) 5 = 6 ∧
    next_local_gid (exK 2 0 1 0) 5 % 2 = 0 ∧
    next_local_gid (exK 1 1 1 1) 5 = 6 := by
  obtain ⟨h1, h2, h3⟩ := (next_local_gid_spec (exK 2 0 1 0) 5).2 (by decide)
  have h6 : next_local_gid (exK 2 0 1 0) 5 = 6 := by
    have := h3 6 (by decide) (by decide)
    omega
  have hrec := (next_local_gid_spec (exK 1 1 1 1) 5).1 (by decide)
  exact ⟨h6, by rw [h6], hrec⟩

/-- C5.  `add_node` fails with the unknown-model error for an
unregistered model id, with the invalid-count error for `n < 1`, and
with the out-of-memory error when the requested range overflows the
registry's addressable capacity; an error leaves the registry untouched
by construction, since no successor state is produced. -/
theorem add_node_error_spec (K : Kernel) (st : NodeManager) (mod : Nat) (n : Int) :
    (K.num_node_models ≤ mod →
      add_node K st mod n = .error .UnknownModelID) ∧
    (mod < K.num_node_models → n < 1 →
      add_node K st mod n = .error .BadProperty) ∧
    (mod < K.num_node_models → 1 ≤ n →
      (add_max_gid st n > K.max_size ∨ add_max_gid st n < add_min_gid st) →
      add_node K st mod n = .error .OutOfMemory) := by
  refine ⟨?_, ?_, ?_⟩
  · intro h
    unfold add_node
    rw [if_pos h]
  · intro h1 h2
    unfold add_node
    rw [if_neg (by omega), if_pos h2]
  · intro h1 h2 h3
    unfold add_node
    rw [if_neg (by omega), if_neg (by omega), if_pos h3]

/-- Witness for C5: the three failure modes at concrete inputs (model
table of nine models; for the third, a kernel whose registry capacity
is two). -/
theorem add_node_error_spec_witness :
    add_node (exK 1 0 2 0) {} 99 1 = .error .UnknownModelID ∧
    add_node (exK 1 0 2 0) {} 5 0 = .error .BadProperty ∧
    add_node (roundRobin 9 exFlags 1 0 2 0 2) {} 5 5 = .error .OutOfMemory := by
  refine ⟨(add_node_error_spec (exK 1 0 2 0) {} 99 1).1 (by decide),
    (add_node_error_spec (exK 1 0 2 0) {} 5 0).2.1 (by decide) (by decide),
    (add_node_error_spec (roundRobin 9 exFlags 1 0 2 0 2) {} 5 5).2.2
      (by decide) (by decide) ?_⟩
  left
  decide

/-- C8.  `get_node` returns the proxy placeholder from the model
registry for a GID that is not locally materialized, returns a plain
local entry directly, and for a sibling container validates the thread
argument against the replica count (equal to threads-per-process),
failing with the unknown-node error outside `[0, threads-per-process)`
and returning the replica for the thread otherwise. -/
theorem get_node_spec (K : Kernel) (reg : LocalNodes) (gid : Nat) (thr : Int) :
    (reg.get_node_by_gid gid = none →
      get_node K reg gid thr = .ok (K.proxy_node thr gid)) ∧
    (∀ e, reg.get_node_by_gid gid = some e → e.siblings.length = 0 →
      get_node K reg gid thr = .ok e.base) ∧
    (∀ e, reg.get_node_by_gid gid = some e → e.siblings.length = K.n_threads →
      0 < K.n_threads →
      ((thr < 0 ∨ (K.n_threads : Int) ≤ thr →
          get_node K reg gid thr = .error .UnknownNode) ∧
       (0 ≤ thr → thr < (K.n_threads : Int) →
          get_node K reg gid thr = .ok (e.siblings.getD thr.toNat default)))) := by
  refine ⟨?_, ?_, ?_⟩
  · intro h
    simp only [get_node, h]
  · intro e he hs
    simp only [get_node, he]
    rw [if_pos hs]
  · intro e he hlen hpos
    have hne : ¬ (e.siblings.length = 0) := by omega
    constructor
    · intro hout
      simp only [get_node, he]
      rw [if_neg hne, if_pos (by rw [hlen]; exact hout)]
    · intro h0 hlt
      simp only [get_node, he]
      rw [if_neg hne, if_neg (by rw [hlen]; omega)]

/-- Witness for C8: on the registry of one sibling-container allocation
(two threads), thread 0 resolves to the replica, thread 2 fails, and an
absent GID yields the proxy placeholder. -/
theorem get_node_spec_witness :
    get_node (exK 1 0 2 0) exSibReg 1 2 = .error .UnknownNode ∧
    get_node (exK 1 0 2 0) exSibReg 1 0 =
      .ok (exSibEntry.siblings.getD 0 default) ∧
    get_node (exK 1 0 2 0) exSibReg 9 0 =
      .ok ((exK 1 0 2 0).proxy_node 0 9) := by
  obtain ⟨h1, h2⟩ := (get_node_spec (exK 1 0 2 0) exSibReg 1 2).2.2 exSibEntry
    (by decide) (by decide) (by decide)
  obtain ⟨h3, h4⟩ := (get_node_spec (exK 1 0 2 0) exSibReg 1 0).2.2 exSibEntry
    (by decide) (by decide) (by decide)
  refine ⟨h1 (by right; decide), h4 (by decide) (by decide),
    (get_node_spec (exK 1 0 2 0) exSibReg 9 0).1 (by decide)⟩

/-- C10.  For a locally materialized plain node the thread argument of
`get_node` is irrelevant — the same node is returned for every thread
value, including negative and out-of-range ones, because the thread is
only validated on the sibling-container path. -/
theorem get_node_plain_ignores_thread (K : Kernel) (reg : LocalNodes)
    (gid : Nat) (e : Entry) (he : reg.get_node_by_gid gid = some e)
    (hs : e.siblings = []) :
    ∀ thr : Int, get_node K reg gid thr = .ok e.base := by
  intro thr
  simp only [get_node, he]
  rw [if_pos (by rw [hs]; rfl)]

/-- Witness for C10: the single plain node of the concrete registry is
returned for thread -5 as well as for thread 100. -/
theorem get_node_plain_ignores_thread_witness :
    get_node (exK 1 0 2 0) exPlainReg 1 (-5) =
      .ok { gid := 1, model_id := 4, thr := 0, vp := 0 } ∧
    get_node (exK 1 0 2 0) exPlainReg 1 100 =
      .ok { gid := 1, model_id := 4, thr := 0, vp := 0 } := by
  have h := get_node_plain_ignores_thread (exK 1 0 2 0) exPlainReg 1
    { base := { gid := 1, model_id := 4, thr := 0, vp := 0 } } (by decide) (by decide)
  exact ⟨h (-5), h 100⟩

/-- C9 (amended).  For a locally materialized GID whose entry is not a
sibling container, `get_thread_siblings` fails with the
no-thread-siblings error, and for a container it returns the replica
list; for an absent GID (including GIDs owned by another process) the
source dereferences a null pointer instead of raising that error. -/
theorem get_thread_siblings_spec (reg : LocalNodes) (gid : Nat) :
    (reg.get_node_by_gid gid = none →
      get_thread_siblings reg gid = .error .NullDereference) ∧
    (∀ e, reg.get_node_by_gid gid = some e → e.siblings.length = 0 →
      get_thread_siblings reg gid = .error .NoThreadSiblingsAvailable) ∧
    (∀ e, reg.get_node_by_gid gid = some e → 0 < e.siblings.length →
      get_thread_siblings reg gid = .ok e.siblings) := by
  refine ⟨?_, ?_, ?_⟩
  · intro h
    simp only [get_thread_siblings, h]
  · intro e he hs
    simp only [get_thread_siblings, he]
    rw [if_pos hs]
  · intro e he hs
    simp only [get_thread_siblings, he]
    rw [if_neg (by omega)]

/-- Counterexample for C9 as stated: GID 1 is absent from the empty
registry, yet the lookup does not fail with the no-siblings error — the
source calls a virtual method through the null registry answer. -/
theorem get_thread_siblings_cex :
    ({} : LocalNodes).get_node_by_gid 1 = none ∧
    get_thread_siblings {} 1 ≠ .error .NoThreadSiblingsAvailable ∧
    get_thread_siblings {} 1 = .error .NullDereference := by decide

/-- Witness for C9's amended theorem: a plain local node raises the
no-siblings error; a container returns its replicas. -/
theorem get_thread_siblings_spec_witness :
    get_thread_siblings exPlainReg 1 = .error .NoThreadSiblingsAvailable ∧
    get_thread_siblings exSibReg 1 = .ok exSibEntry.siblings := by
  refine ⟨(get_thread_siblings_spec exPlainReg 1).2.1
      { base := { gid := 1, model_id := 4, thr := 0, vp := 0 } } (by decide) (by decide),
    (get_thread_siblings_spec exSibReg 1).2.2 exSibEntry (by decide) (by decide)⟩

/-- C1.  A successful `add_node(model, n)` returns a handle for a
contiguous range of exactly `n` GIDs, all strictly greater than the
previous registry maximum (hence greater than every previously
allocated GID), and afterwards the registry's max-GID equals the last
GID of the range — in every branch and on every rank, including ranks
that materialized zero instances (remote markers keep the bookkeeping
exact). -/
theorem add_node_gid_range_spec (K : Kernel) (st : NodeManager) (mod : Nat)
    (n : Int) (st2 : NodeManager) (r : GIDCollectionPrimitive)
    (hK : TopoOk K)
    (hinv : ∀ e ∈ st.local_nodes.nodes, e.base.gid ≤ st.local_nodes.max_gid)
    (hW : st.local_nodes.max_gid + 1 + n.toNat < idxMod)
    (hok : add_node K st mod n = .ok (st2, r)) :
    r.first = st.local_nodes.max_gid + 1 ∧
    r.last = st.local_nodes.max_gid + n.toNat ∧
    r.last + 1 - r.first = n.toNat ∧
    st.local_nodes.max_gid < r.first ∧
    (∀ e ∈ st.local_nodes.nodes, e.base.gid < r.first) ∧
    st2.local_nodes.max_gid = r.last := by
  unfold add_node at hok
  by_cases hmod : K.num_node_models ≤ mod
  · rw [if_pos hmod] at hok; cases hok
  rw [if_neg hmod] at hok
  by_cases hn : n < 1
  · rw [if_pos hn] at hok; cases hok
  rw [if_neg hn] at hok
  have hntn : 1 ≤ n.toNat := by omega
  set M := st.local_nodes.max_gid with hM
  have hmin : add_min_gid st = M + 1 := by
    unfold add_min_gid
    exact Nat.mod_eq_of_lt (by omega)
  have hmax : add_max_gid st n = M + 1 + n.toNat := by
    unfold add_max_gid
    rw [hmin]
    exact Nat.mod_eq_of_lt (by omega)
  by_cases hcap : add_max_gid st n > K.max_size ∨ add_max_gid st n < add_min_gid st
  · rw [if_pos hcap] at hok; cases hok
  rw [if_neg hcap] at hok
  have hcnt : add_max_gid st n - add_min_gid st = n.toNat := by omega
  -- the final conjunct is the only branch-dependent one
  have hlastmax : st2.local_nodes.max_gid = add_max_gid st n - 1 ∧
      r.first = add_min_gid st ∧ r.last = add_max_gid st n - 1 := by
    by_cases h1 : (K.flags mod).potential_global_receiver ∧ 0 < K.num_rec_procs
    · rw [if_pos h1] at hok
      injection hok with hpair
      injection hpair.symm with ha hb
      subst ha; subst hb
      refine ⟨?_, rfl, rfl⟩
      rw [gsd_loop_max, hcnt, fold_max_range', if_neg (by omega)]
      rw [hmin, hmax, ← hM]
      exact nat_max_right (by omega)
    rw [if_neg h1] at hok
    by_cases h2 : (K.flags mod).has_proxies
    · rw [if_pos h2] at hok
      injection hok with hpair
      injection hpair.symm with ha hb
      subst ha; subst hb
      refine ⟨?_, rfl, rfl⟩
      by_cases hrk : K.num_sim_procs ≤ K.rank
      · -- pure recording rank: nothing is local, the last GID becomes a
        -- remote marker
        have hnl := hK.local_suggest_false hrk
        rw [hnl, if_neg (by simp), proxies_loop_nonlocal K mod _ hnl]
        simp only [LocalNodes.add_remote_node]
        exact nat_max_right (by omega)
      · push_neg at hrk
        by_cases hl : K.is_local_vp (K.suggest_vp (add_max_gid st n - 1)) = true
        · -- the last GID is owned here: the loop reaches and records it
          rw [hl, if_pos rfl]
          have hlast := ((hK.local_suggest_iff _).mp hl).2
          have hstart : proxies_start K st % K.num_sim_procs = K.rank ∧
              proxies_start K st ≤ add_max_gid st n - 1 := by
            unfold proxies_start
            by_cases hfl : K.is_local_vp (K.suggest_vp (add_min_gid st)) = true
            · rw [if_pos hfl]
              exact ⟨((hK.local_suggest_iff _).mp hfl).2, by omega⟩
            · rw [if_neg hfl]
              obtain ⟨hgt, hmodr, hleast⟩ := next_local_gid_least K (add_min_gid st) hrk
              have hfirstne : add_min_gid st % K.num_sim_procs ≠ K.rank := by
                intro hc
                exact hfl ((hK.local_suggest_iff _).mpr ⟨hrk, hc⟩)
              have hlt2 : add_min_gid st < add_max_gid st n - 1 := by
                rcases Nat.lt_or_ge (add_min_gid st) (add_max_gid st n - 1) with h | h
                · exact h
                · have : add_min_gid st = add_max_gid st n - 1 := by omega
                  rw [this] at hfirstne
                  exact absurd hlast hfirstne
              exact ⟨hmodr, hleast _ hlt2 hlast⟩
          show (proxies_loop K mod (add_max_gid st n)
            (add_max_gid st n - proxies_start K st) (proxies_start K st)
            st.local_nodes).max_gid = add_max_gid st n - 1
          have hup := proxies_loop_upper K mod (add_max_gid st n)
            (add_max_gid st n - proxies_start K st) (proxies_start K st)
            st.local_nodes
          have hlo := proxies_loop_reaches_last K mod (add_max_gid st n) hK hrk
            hlast (by omega) (add_max_gid st n - proxies_start K st)
            (proxies_start K st) st.local_nodes (by omega) hstart.1 hstart.2
          have hMle : Nat.max st.local_nodes.max_gid (add_max_gid st n - 1) =
              add_max_gid st n - 1 := nat_max_right (by omega)
          rw [hMle] at hup
          omega
        · -- the last GID is remote: the explicit remote marker fixes the
          -- maximum
          rw [if_neg hl]
          have hup := proxies_loop_upper K mod (add_max_gid st n)
            (add_max_gid st n - proxies_start K st) (proxies_start K st)
            st.local_nodes
          simp only [LocalNodes.add_remote_node]
          have hMle : Nat.max st.local_nodes.max_gid (add_max_gid st n - 1) =
              add_max_gid st n - 1 := nat_max_right (by omega)
          rw [hMle] at hup
          exact nat_max_right hup
    rw [if_neg h2] at hok
    by_cases h3 : ¬ (K.flags mod).one_node_per_process
    · rw [if_pos h3] at hok
      injection hok with hpair
      injection hpair.symm with ha hb
      subst ha; subst hb
      refine ⟨?_, rfl, rfl⟩
      rw [fold_add_local (mkSiblingEntry K mod) (fun g => rfl), hcnt,
        fold_max_range', if_neg (by omega), hmin, hmax, ← hM]
      show Nat.max M (M + 1 + n.toNat - 1) = M + 1 + n.toNat - 1
      exact nat_max_right (by omega)
    · rw [if_neg h3] at hok
      injection hok with hpair
      injection hpair.symm with ha hb
      subst ha; subst hb
      refine ⟨?_, rfl, rfl⟩
      rw [fold_add_local (mkMusicEntry K mod) (fun g => rfl), hcnt,
        fold_max_range', if_neg (by omega), hmin, hmax, ← hM]
      show Nat.max M (M + 1 + n.toNat - 1) = M + 1 + n.toNat - 1
      exact nat_max_right (by omega)
  obtain ⟨hfin, hrf, hrl⟩ := hlastmax
  refine ⟨by omega, by omega, by omega, by omega, ?_, by omega⟩
  intro e he
  have := hinv e he
  omega

/-- Concrete `has_proxies` run used as a witness: two simulation
processes, one thread, rank 0, model 1, two nodes. -/
def exRun1 : Except NestError (NodeManager × GIDCollectionPrimitive) :=
  add_node (exK 2 0 1 0) {} 1 2

/-- The state produced by that run. -/
def exSt1 : NodeManager := (exRun1.toOption.getD default).1

/-- The GID range handle produced by that run. -/
def exR1 : GIDCollectionPrimitive := (exRun1.toOption.getD default).2

/-- Witness for C1: the concrete `has_proxies` run returns the range
`[1, 2]` and leaves the registry maximum at 2 although only GID 2 was
materialized locally. -/
theorem add_node_gid_range_spec_witness :
    exR1.first = 1 ∧ exR1.last = 2 ∧ exSt1.local_nodes.max_gid = exR1.last := by
  obtain ⟨h1, h2, h3, h4, h5, h6⟩ := add_node_gid_range_spec (exK 2 0 1 0) {} 1 2
    exSt1 exR1 (roundRobin_topoOk 9 exFlags 2 0 1 0 1000 (by decide) (by decide))
    (by decide) (by decide) rfl
  exact ⟨h1.trans rfl, h2.trans rfl, h6⟩

/-- Registry of a successful `add_node` run (empty on error); used to
inspect concrete runs. -/
def regOf (r : Except NestError (NodeManager × GIDCollectionPrimitive)) :
    List Entry :=
  match r with
  | .ok p => p.1.local_nodes.nodes
  | .error _ => []

/-- Nodes agree on identity and placement (GID, thread, virtual
process); the mutable lifecycle fields may differ. -/
def same_base_placement (a b : BaseNode) : Prop :=
  a.gid = b.gid ∧ a.thr = b.thr ∧ a.vp = b.vp

/-- Registry entries agree on placement, replicas included. -/
def same_placement (a b : Entry) : Prop :=
  same_base_placement a.base b.base ∧
    List.Forall₂ same_base_placement a.siblings b.siblings

/-- Placement agreement is reflexive. -/
theorem forall2_sbp_refl (l : List BaseNode) :
    List.Forall₂ same_base_placement l l :=
  List.forall₂_same.mpr (fun _ _ => ⟨rfl, rfl, rfl⟩)

/-- Placement agreement of entry lists is reflexive. -/
theorem forall2_sp_refl (l : List Entry) :
    List.Forall₂ same_placement l l :=
  List.forall₂_same.mpr (fun e _ => ⟨⟨rfl, rfl, rfl⟩, forall2_sbp_refl e.siblings⟩)

/-- Stamping thread-local indices into a replica list does not change
any placement field. -/
theorem set_sib_lids_sbp (counts : List Nat) : ∀ (t : Nat) (sibs : List BaseNode),
    List.Forall₂ same_base_placement sibs (set_sib_lids counts t sibs) := by
  intro t sibs
  induction sibs generalizing t with
  | nil => exact List.Forall₂.nil
  | cons s rest ih =>
    rw [set_sib_lids]
    by_cases hc : t < counts.length
    · rw [if_pos hc]
      exact List.Forall₂.cons ⟨rfl, rfl, rfl⟩ (ih (t + 1))
    · rw [if_neg hc]
      exact List.Forall₂.cons ⟨rfl, rfl, rfl⟩ (ih (t + 1))

/-- The registry-side thread-local-index assignment of the view-cache
rebuild does not change any placement field. -/
theorem assign_lids_go_sp : ∀ (l : List Entry) (counts : List Nat),
    List.Forall₂ same_placement l (assign_lids_go counts l) := by
  intro l
  induction l with
  | nil => intro counts; exact List.Forall₂.nil
  | cons e rest ih =>
    intro counts
    rw [assign_lids_go]
    by_cases hs : 0 < e.siblings.length
    · rw [if_pos hs]
      exact List.Forall₂.cons ⟨⟨rfl, rfl, rfl⟩, set_sib_lids_sbp counts 0 e.siblings⟩
        (ih _)
    · rw [if_neg hs]
      by_cases ht : e.base.thr < counts.length
      · rw [if_pos ht]
        exact List.Forall₂.cons ⟨⟨rfl, rfl, rfl⟩, forall2_sbp_refl e.siblings⟩ (ih _)
      · rw [if_neg ht]
        exact List.Forall₂.cons ⟨⟨rfl, rfl, rfl⟩, forall2_sbp_refl e.siblings⟩ (ih _)

/-- One worker's prepare pass does not change any placement field. -/
theorem prepare_partition_sbp : ∀ l : List BaseNode,
    List.Forall₂ same_base_placement l (prepare_partition l).1 := by
  intro l
  induction l with
  | nil => exact List.Forall₂.nil
  | cons nd rest ih =>
    by_cases hp : nd.prep_fails = true
    · simp only [prepare_partition, prepare_node, hp, if_pos]
      exact forall2_sbp_refl _
    · simp only [prepare_partition, prepare_node, hp, Bool.false_eq_true, if_false]
      exact List.Forall₂.cons ⟨rfl, rfl, rfl⟩ ih

/-- Every entry the `has_proxies` loop appends carries the placement
the topology suggested for its GID. -/
theorem proxies_loop_nodes (K : Kernel) (mod max_gid : Nat) : ∀ (fuel gid : Nat)
    (reg : LocalNodes) (e : Entry),
    e ∈ (proxies_loop K mod max_gid fuel gid reg).nodes →
    e ∈ reg.nodes ∨
      (e.base.vp = K.suggest_vp e.base.gid ∧
       e.base.thr = K.vp_to_thread (K.suggest_vp e.base.gid) ∧
       e.base.model_id = (mod : Int) ∧ e.siblings = []) := by
  intro fuel
  induction fuel with
  | zero => intro gid reg e he; exact Or.inl he
  | succ fuel ih =>
    intro gid reg e he
    simp only [proxies_loop] at he
    by_cases hlt : gid < max_gid
    · rw [if_pos hlt] at he
      by_cases hl : K.is_local_vp (K.suggest_vp gid) = true
      · rw [hl, if_pos rfl] at he
        rcases ih _ _ e he with hmem | hprops
        · simp only [LocalNodes.add_local_node] at hmem
          rcases List.mem_append.mp hmem with h2 | h2
          · exact Or.inl h2
          · rw [List.mem_singleton] at h2
            subst h2
            exact Or.inr ⟨rfl, rfl, rfl, rfl⟩
        · exact Or.inr hprops
      · rw [if_neg hl] at he
        exact ih _ _ e he
    · rw [if_neg hlt] at he
      exact Or.inl he

/-- C3 (amended).  Every node created by the `has_proxies` branch of
`add_node` has its (thread, virtual process) equal to the topology's
placement function at its GID; nodes from the other branches also get
a fixed placement at allocation time but not necessarily
`placement(gid)` (replicas and single-instance proxies are pinned per
thread / to thread 0); and no embedded manager operation (view-cache
rebuild, prepare pass, state reset) changes any node's GID, thread or
virtual process afterwards. -/
theorem placement_consistency_amended :
    (∀ (K : Kernel) (st : NodeManager) (mod : Nat) (n : Int)
       (st2 : NodeManager) (r : GIDCollectionPrimitive),
       ¬ ((K.flags mod).potential_global_receiver = true ∧ 0 < K.num_rec_procs) →
       (K.flags mod).has_proxies = true →
       add_node K st mod n = .ok (st2, r) →
       ∀ e ∈ st2.local_nodes.nodes, e ∈ st.local_nodes.nodes ∨
         (e.base.vp = K.suggest_vp e.base.gid ∧
          e.base.thr = K.vp_to_thread (K.suggest_vp e.base.gid))) ∧
    (∀ (K : Kernel) (st : NodeManager),
       List.Forall₂ same_placement st.local_nodes.nodes
         (ensure_valid_thread_local_ids K st).local_nodes.nodes) ∧
    (∀ st : NodeManager,
       List.Forall₂ (List.Forall₂ same_base_placement) st.nodes_vec
         (prepare_nodes st).1.nodes_vec) ∧
    (∀ st : NodeManager,
       List.Forall₂ same_placement st.local_nodes.nodes
         (reset_nodes_state st).local_nodes.nodes) := by
  refine ⟨?_, ?_, ?_, ?_⟩
  · intro K st mod n st2 r h1 h2 hok
    unfold add_node at hok
    by_cases hmod : K.num_node_models ≤ mod
    · rw [if_pos hmod] at hok; cases hok
    rw [if_neg hmod] at hok
    by_cases hn : n < 1
    · rw [if_pos hn] at hok; cases hok
    rw [if_neg hn] at hok
    by_cases hcap : add_max_gid st n > K.max_size ∨ add_max_gid st n < add_min_gid st
    · rw [if_pos hcap] at hok; cases hok
    rw [if_neg hcap, if_neg h1, if_pos h2] at hok
    injection hok with hpair
    injection hpair.symm with ha hb
    subst ha
    intro e he
    by_cases hl : K.is_local_vp (K.suggest_vp (add_max_gid st n - 1)) = true
    · rw [hl, if_pos rfl] at he
      rcases proxies_loop_nodes K mod (add_max_gid st n) _ _ _ e he with h | h
      · exact Or.inl h
      · exact Or.inr ⟨h.1, h.2.1⟩
    · rw [if_neg hl] at he
      rcases proxies_loop_nodes K mod (add_max_gid st n) _ _ _ e he with h | h
      · exact Or.inl h
      · exact Or.inr ⟨h.1, h.2.1⟩
  · intro K st
    unfold ensure_valid_thread_local_ids
    by_cases hsz : st.size = st.nodes_vec_network_size
    · rw [if_pos hsz]
      exact forall2_sp_refl _
    · rw [if_neg hsz]
      exact assign_lids_go_sp _ _
  · intro st
    unfold prepare_nodes
    cases (prepare_exceptions st).head? with
    | some w =>
      show List.Forall₂ _ st.nodes_vec (prepared_vec st)
      exact List.forall₂_map_right_iff.mpr
        (List.forall₂_same.mpr (fun l _ => prepare_partition_sbp l))
    | none =>
      show List.Forall₂ _ st.nodes_vec (prepared_vec st)
      exact List.forall₂_map_right_iff.mpr
        (List.forall₂_same.mpr (fun l _ => prepare_partition_sbp l))
  · intro st
    show List.Forall₂ same_placement st.local_nodes.nodes
      (st.local_nodes.nodes.map reset_entry)
    refine List.forall₂_map_right_iff.mpr
      (List.forall₂_same.mpr (fun e _ => ?_))
    unfold reset_entry
    by_cases hs : e.siblings.length = 0
    · rw [if_pos hs]
      exact ⟨⟨rfl, rfl, rfl⟩, forall2_sbp_refl _⟩
    · rw [if_neg hs]
      by_cases hm : e.base.model_id = -1
      · rw [if_pos hm]
        refine ⟨⟨rfl, rfl, rfl⟩, ?_⟩
        exact List.forall₂_map_right_iff.mpr
          (List.forall₂_same.mpr (fun s _ => ⟨rfl, rfl, rfl⟩))
      · rw [if_neg hm]
        exact ⟨⟨rfl, rfl, rfl⟩, forall2_sbp_refl _⟩

/-- Counterexample for C3 as stated: in the proxy-less replicated
branch, the replica for thread 0 of GID 1 (on one process with two
threads) has virtual process 0 while the placement function assigns
virtual process 1 to GID 1 — so not every node of every branch carries
`(vp_to_thread(placement(gid)), placement(gid))`. -/
theorem placement_consistency_cex :
    ¬ (∀ e ∈ regOf (add_node (exK 1 0 2 0) {} 5 1), ∀ s ∈ e.siblings,
        s.vp = (exK 1 0 2 0).suggest_vp s.gid ∧
        s.thr = (exK 1 0 2 0).vp_to_thread ((exK 1 0 2 0).suggest_vp s.gid)) := by
  decide

/-- Witness for C3's amended theorem: the node materialized by the
concrete `has_proxies` run carries the suggested placement, and the
three lifecycle operations leave placements of a concrete state
untouched. -/
theorem placement_consistency_amended_witness :
    ({ base := { gid := 2, model_id := 1 } } ∈ ({} : NodeManager).local_nodes.nodes ∨
      (({ gid := 2, model_id := 1 } : BaseNode).vp =
          (exK 2 0 1 0).suggest_vp 2 ∧
        ({ gid := 2, model_id := 1 } : BaseNode).thr =
          (exK 2 0 1 0).vp_to_thread ((exK 2 0 1 0).suggest_vp 2))) ∧
    List.Forall₂ same_placement exPlainReg.nodes
      (ensure_valid_thread_local_ids (exK 1 0 2 0)
        { local_nodes := exPlainReg }).local_nodes.nodes ∧
    List.Forall₂ (List.Forall₂ same_base_placement) [[({} : BaseNode)]]
      (prepare_nodes { nodes_vec := [[({} : BaseNode)]] }).1.nodes_vec ∧
    List.Forall₂ same_placement exPlainReg.nodes
      (reset_nodes_state { local_nodes := exPlainReg }).local_nodes.nodes := by
  refine ⟨?_, placement_consistency_amended.2.1 (exK 1 0 2 0) { local_nodes := exPlainReg },
    placement_consistency_amended.2.2.1 { nodes_vec := [[({} : BaseNode)]] },
    placement_consistency_amended.2.2.2 { local_nodes := exPlainReg }⟩
  exact placement_consistency_amended.1 (exK 2 0 1 0) {} 1 2 exSt1 exR1
    (by decide) (by decide) rfl { base := { gid := 2, model_id := 1 } } (by decide)

/-- The observable effect of a successful node preparation: buffers
initialized and calibration applied. -/
def prep_mark (nd : BaseNode) : BaseNode :=
  { nd with buffers_initialized := true, calibrated := true }

/-- A healthy node's preparation succeeds with the marked node. -/
theorem prepare_node_ok (nd : BaseNode) (h : nd.prep_fails = false) :
    prepare_node nd = .ok (prep_mark nd) := by
  unfold prepare_node
  rw [if_neg (by simp [h])]
  rfl

/-- A failing node's preparation raises its message. -/
theorem prepare_node_fail (nd : BaseNode) (h : nd.prep_fails = true) :
    prepare_node nd = .error nd.prep_msg := by
  unfold prepare_node
  rw [if_pos h]

/-- A partition without failing nodes is prepared in full and captures
no failure. -/
theorem prepare_partition_ok : ∀ l : List BaseNode,
    (∀ nd ∈ l, nd.prep_fails = false) →
    (prepare_partition l).1 = l.map prep_mark ∧
      (prepare_partition l).2.1 = none := by
  intro l
  induction l with
  | nil => intro _; exact ⟨rfl, rfl⟩
  | cons nd rest ih =>
    intro h
    have hnd : nd.prep_fails = false := h nd (List.mem_cons_self nd rest)
    obtain ⟨h1, h2⟩ := ih (fun x hx => h x (List.mem_cons_of_mem nd hx))
    simp only [prepare_partition, prepare_node_ok nd hnd]
    exact ⟨by rw [List.map_cons, h1], h2⟩

/-- A partition whose first failing node is `f` prepares exactly the
prefix before `f`, leaves `f` and its tail untouched, and captures
`f`'s message. -/
theorem prepare_partition_fail : ∀ (p : List BaseNode) (f : BaseNode)
    (q : List BaseNode), (∀ nd ∈ p, nd.prep_fails = false) →
    f.prep_fails = true →
    (prepare_partition (p ++ f :: q)).1 = p.map prep_mark ++ f :: q ∧
      (prepare_partition (p ++ f :: q)).2.1 = some { msg := f.prep_msg } := by
  intro p
  induction p with
  | nil =>
    intro f q _ hf
    simp only [List.nil_append, List.map_nil, prepare_partition,
      prepare_node_fail f hf]
    exact ⟨trivial, trivial⟩
  | cons nd rest ih =>
    intro f q hp hf
    have hnd : nd.prep_fails = false := hp nd (List.mem_cons_self nd rest)
    obtain ⟨h1, h2⟩ := ih f q (fun x hx => hp x (List.mem_cons_of_mem nd hx)) hf
    simp only [List.cons_append, prepare_partition, prepare_node_ok nd hnd,
      List.append_eq]
    exact ⟨by rw [List.map_cons, List.cons_append, h1], h2⟩

/-- Dropping `none`s from a list that holds only `none`s leaves
nothing. -/
theorem reduceOption_all_none {α : Type} : ∀ l : List (Option α),
    (∀ x ∈ l, x = none) → l.reduceOption = [] := by
  intro l
  induction l with
  | nil => intro _; rfl
  | cons x rest ih =>
    intro h
    have hx : x = none := h x (List.mem_cons_self x rest)
    subst hx
    rw [List.reduceOption_cons_of_none]
    exact ih (fun y hy => h y (List.mem_cons_of_mem none hy))

/-- C4 (amended).  If exactly one node in the view cache fails its
preparation, `prepare_nodes` raises exactly one aggregated failure
carrying the original message, and only after every worker's partition
loop has completed: every node on the other workers and every node
before the failing one on its worker is prepared, while the failing
node and the nodes after it on the same worker are left unprepared
(the exception aborts the rest of that worker's loop); the active-node
count is not published. -/
theorem prepare_failure_aggregation_amended (A B : List (List BaseNode))
    (P Q : List BaseNode) (f : BaseNode) (st : NodeManager)
    (hvec : st.nodes_vec = A ++ (P ++ f :: Q) :: B)
    (hA : ∀ l ∈ A, ∀ nd ∈ l, nd.prep_fails = false)
    (hP : ∀ nd ∈ P, nd.prep_fails = false)
    (hf : f.prep_fails = true) :
    (prepare_nodes st).2 = some { msg := f.prep_msg } ∧
    (prepare_nodes st).1.nodes_vec =
      A.map (fun l => l.map prep_mark) ++
        (P.map prep_mark ++ f :: Q) :: B.map (fun l => (prepare_partition l).1) ∧
    (prepare_nodes st).1.num_active_nodes = st.num_active_nodes := by
  have hexcA : ∀ x ∈ A.map (fun l => (prepare_partition l).2.1), x = none := by
    intro x hx
    obtain ⟨l, hl, hlx⟩ := List.mem_map.mp hx
    rw [← hlx]
    exact (prepare_partition_ok l (hA l hl)).2
  have hfailpart := prepare_partition_fail P f Q hP hf
  have hexc : (prepare_exceptions st).head? = some { msg := f.prep_msg } := by
    unfold prepare_exceptions
    rw [hvec, List.map_append, List.map_cons, hfailpart.2]
    rw [List.reduceOption_append]
    rw [reduceOption_all_none _ hexcA, List.nil_append,
      List.reduceOption_cons_of_some]
    rfl
  have hvec2 : prepared_vec st =
      A.map (fun l => l.map prep_mark) ++
        (P.map prep_mark ++ f :: Q) :: B.map (fun l => (prepare_partition l).1) := by
    unfold prepared_vec
    rw [hvec, List.map_append, List.map_cons, hfailpart.1]
    congr 1
    refine List.map_congr_left ?_
    intro l hl
    exact (prepare_partition_ok l (hA l hl)).1
  unfold prepare_nodes
  rw [hexc]
  exact ⟨rfl, hvec2, rfl⟩

/-- A state with one worker whose partition holds a failing node
followed by a healthy one. -/
def exStPrep : NodeManager :=
  { nodes_vec := [[{ gid := 1, prep_fails := true, prep_msg := 7 },
    { gid := 2 }]] }

/-- Counterexample for C4 as stated: with partition
`[failing, healthy]` on one worker, the healthy node placed after the
failing one never receives its preparation call (its buffers stay
uninitialized), although one aggregated failure with the original
message is raised. -/
theorem prepare_failure_cex :
    (prepare_nodes exStPrep).2 = some { msg := 7 } ∧
    ¬ (∀ l ∈ (prepare_nodes exStPrep).1.nodes_vec, ∀ nd ∈ l,
        nd.prep_fails = true ∨ nd.buffers_initialized = true) := by
  decide

/-- A two-worker state: worker 0 holds a healthy node, worker 1 a
failing node followed by a healthy one. -/
def exStPrep2 : NodeManager :=
  { nodes_vec := [[{ gid := 3 }],
    [{ gid := 1, prep_fails := true, prep_msg := 7 }, { gid := 2 }]] }

/-- Witness for C4's amended theorem on the two-worker state: the other
worker's node is prepared, the failing node's message is aggregated,
the node after the failure stays untouched, and the active-node count
is not published. -/
theorem prepare_failure_aggregation_amended_witness :
    (prepare_nodes exStPrep2).2 = some { msg := 7 } ∧
    (prepare_nodes exStPrep2).1.nodes_vec =
      [[{ gid := 3, buffers_initialized := true, calibrated := true }],
        [{ gid := 1, prep_fails := true, prep_msg := 7 }, { gid := 2 }]] ∧
    (prepare_nodes exStPrep2).1.num_active_nodes = 0 := by
  obtain ⟨h1, h2, h3⟩ := prepare_failure_aggregation_amended
    [[{ gid := 3 }]] [] [] [{ gid := 2 }]
    { gid := 1, prep_fails := true, prep_msg := 7 } exStPrep2
    rfl (by decide) (by decide) (by decide)
  exact ⟨h1, h2.trans (by decide), h3.trans rfl⟩

/-- Looking a GID up in a mapped contiguous range hits exactly the
builder's entry for that GID. -/
theorem find_map_range' (f : Nat → Entry) (hf : ∀ x, (f x).base.gid = x) :
    ∀ (c s g : Nat), s ≤ g → g < s + c →
    ((List.range' s c).map f).find? (fun e => e.base.gid == g) = some (f g) := by
  intro c
  induction c with
  | zero => intro s g h1 h2; omega
  | succ c ih =>
    intro s g h1 h2
    rw [List.range'_succ, List.map_cons]
    by_cases hsg : s = g
    · subst hsg
      rw [List.find?_cons_of_pos]
      simp [hf]
    · rw [List.find?_cons_of_neg]
      · exact ih (s + 1) g (by omega) (by omega)
      · simp [hf, hsg]

/-- Indexing a mapped contiguous range returns the builder's value. -/
theorem getD_map_range' {α : Type} (f : Nat → α) (d : α) :
    ∀ (c s t : Nat), t < c → ((List.range' s c).map f).getD t d = f (s + t) := by
  intro c
  induction c with
  | zero => intro s t h; omega
  | succ c ih =>
    intro s t h
    rw [List.range'_succ, List.map_cons]
    cases t with
    | zero =>
      rw [List.getD_cons_zero, Nat.add_zero]
    | succ t =>
      rw [List.getD_cons_succ, ih (s + 1) t (by omega)]
      congr 1
      omega

/-- C6.  For a proxy-less, per-thread-replicated model, `add_node`
creates exactly `n` sibling containers, one per GID of the range, each
carrying exactly threads-per-process replicas that all share the
container's GID; and `get_node(gid, t)` for every valid thread returns
the replica for `t` — a distinct node per thread, all with that GID. -/
theorem sibling_allocation_spec (K : Kernel) (st : NodeManager) (mod : Nat)
    (n : Int) (st2 : NodeManager) (r : GIDCollectionPrimitive)
    (hgr : ¬ ((K.flags mod).potential_global_receiver = true ∧ 0 < K.num_rec_procs))
    (hpx : (K.flags mod).has_proxies = false)
    (hop : (K.flags mod).one_node_per_process = false)
    (hinv : ∀ e ∈ st.local_nodes.nodes, e.base.gid ≤ st.local_nodes.max_gid)
    (hW : st.local_nodes.max_gid + 1 + n.toNat < idxMod)
    (hnt : 0 < K.n_threads)
    (hok : add_node K st mod n = .ok (st2, r)) :
    st2.local_nodes.nodes.length = st.local_nodes.nodes.length + n.toNat ∧
    (∀ e ∈ st2.local_nodes.nodes, e ∈ st.local_nodes.nodes ∨
      (e.siblings.length = K.n_threads ∧ r.first ≤ e.base.gid ∧
        e.base.gid ≤ r.last ∧ e.base.model_id = -1 ∧
        ∀ s ∈ e.siblings, s.gid = e.base.gid)) ∧
    (∀ g, r.first ≤ g → g ≤ r.last → ∀ t, t < K.n_threads →
      get_node K st2.local_nodes g (t : Int) = .ok (sibling_member K mod g t)) ∧
    (∀ g, r.first ≤ g → g ≤ r.last → ∀ t u, t < K.n_threads → u < K.n_threads →
      t ≠ u →
      get_node K st2.local_nodes g (t : Int) ≠ get_node K st2.local_nodes g (u : Int)) ∧
    (∀ g t, (sibling_member K mod g t).gid = g ∧ (sibling_member K mod g t).thr = t) := by
  unfold add_node at hok
  by_cases hmod : K.num_node_models ≤ mod
  · rw [if_pos hmod] at hok; cases hok
  rw [if_neg hmod] at hok
  by_cases hn : n < 1
  · rw [if_pos hn] at hok; cases hok
  rw [if_neg hn] at hok
  have hntn : 1 ≤ n.toNat := by omega
  set M := st.local_nodes.max_gid with hM
  have hmin : add_min_gid st = M + 1 := by
    unfold add_min_gid
    exact Nat.mod_eq_of_lt (by omega)
  have hmax : add_max_gid st n = M + 1 + n.toNat := by
    unfold add_max_gid
    rw [hmin]
    exact Nat.mod_eq_of_lt (by omega)
  by_cases hcap : add_max_gid st n > K.max_size ∨ add_max_gid st n < add_min_gid st
  · rw [if_pos hcap] at hok; cases hok
  rw [if_neg hcap, if_neg hgr, if_neg (by simp [hpx]), if_pos (by simp [hop])] at hok
  have hcnt : add_max_gid st n - add_min_gid st = n.toNat := by omega
  injection hok with hpair
  injection hpair.symm with ha hb
  subst ha; subst hb
  have hfold := fold_add_local (mkSiblingEntry K mod) (fun g => rfl)
    (List.range' (add_min_gid st) (add_max_gid st n - add_min_gid st)) st.local_nodes
  have hnodes : ((List.range' (add_min_gid st) (add_max_gid st n - add_min_gid st)).foldl
      (fun r gid => r.add_local_node (mkSiblingEntry K mod gid)) st.local_nodes).nodes =
      st.local_nodes.nodes ++
        (List.range' (add_min_gid st) (add_max_gid st n - add_min_gid st)).map
          (mkSiblingEntry K mod) := by
    rw [hfold]
  have hfind : ∀ g, add_min_gid st ≤ g → g ≤ add_max_gid st n - 1 →
      ((List.range' (add_min_gid st) (add_max_gid st n - add_min_gid st)).foldl
        (fun r gid => r.add_local_node (mkSiblingEntry K mod gid))
        st.local_nodes).get_node_by_gid g = some (mkSiblingEntry K mod g) := by
    intro g hg1 hg2
    unfold LocalNodes.get_node_by_gid
    rw [hnodes, List.find?_append]
    have hnot : st.local_nodes.nodes.find? (fun e => e.base.gid == g) = none := by
      rw [List.find?_eq_none]
      intro e he
      have := hinv e he
      simp only [beq_iff_eq]
      omega
    rw [hnot]
    rw [find_map_range' (mkSiblingEntry K mod) (fun x => rfl)
      (add_max_gid st n - add_min_gid st) (add_min_gid st) g hg1 (by omega)]
    rfl
  have hget : ∀ g, add_min_gid st ≤ g → g ≤ add_max_gid st n - 1 →
      ∀ t, t < K.n_threads →
      get_node K ((List.range' (add_min_gid st) (add_max_gid st n - add_min_gid st)).foldl
        (fun r gid => r.add_local_node (mkSiblingEntry K mod gid)) st.local_nodes)
        g (t : Int) = .ok (sibling_member K mod g t) := by
    intro g hg1 hg2 t ht
    simp only [get_node, hfind g hg1 hg2]
    have hlen : (mkSiblingEntry K mod g).siblings.length = K.n_threads := by
      simp [mkSiblingEntry]
    rw [if_neg (by omega), if_neg (by rw [hlen]; push_neg; constructor <;> omega)]
    have htn : ((t : Int)).toNat = t := Int.toNat_natCast t
    rw [htn]
    show Except.ok (((List.range K.n_threads).map (sibling_member K mod g)).getD t default) = _
    rw [List.range_eq_range', getD_map_range' (sibling_member K mod g) default
      K.n_threads 0 t ht, Nat.zero_add]
  refine ⟨?_, ?_, ?_, ?_, fun g t => ⟨rfl, rfl⟩⟩
  · show ((List.range' (add_min_gid st) (add_max_gid st n - add_min_gid st)).foldl
        (fun r gid => r.add_local_node (mkSiblingEntry K mod gid))
        st.local_nodes).nodes.length = st.local_nodes.nodes.length + n.toNat
    rw [hnodes, List.length_append, List.length_map, List.length_range', hcnt]
  · intro e he
    have he2 : e ∈ st.local_nodes.nodes ++
        (List.range' (add_min_gid st) (add_max_gid st n - add_min_gid st)).map
          (mkSiblingEntry K mod) := by
      rw [← hnodes]
      exact he
    rcases List.mem_append.mp he2 with h | h
    · exact Or.inl h
    · right
      obtain ⟨g, hgmem, hge⟩ := List.mem_map.mp h
      have hgr2 := List.mem_range'_1.mp hgmem
      subst hge
      refine ⟨by simp [mkSiblingEntry], ?_, ?_, rfl, ?_⟩
      · show add_min_gid st ≤ g
        omega
      · show g ≤ add_max_gid st n - 1
        omega
      · intro s hs
        obtain ⟨t, _, hts⟩ := List.mem_map.mp hs
        rw [← hts]
        rfl
  · intro g hg1 hg2 t ht
    exact hget g hg1 hg2 t ht
  · intro g hg1 hg2 t u ht hu hne heq
    have heq2 : (Except.ok (sibling_member K mod g t) : Except NestError BaseNode) =
        Except.ok (sibling_member K mod g u) :=
      (hget g hg1 hg2 t ht).symm.trans (heq.trans (hget g hg1 hg2 u hu))
    injection heq2 with hs
    exact hne (congrArg BaseNode.thr hs)

/-- Concrete proxy-less replicated run used as a witness: one process,
two threads, model 5, one node. -/
def exRun6 : Except NestError (NodeManager × GIDCollectionPrimitive) :=
  add_node (exK 1 0 2 0) {} 5 1

/-- The state produced by that run. -/
def exSt6 : NodeManager := (exRun6.toOption.getD default).1

/-- The GID range handle produced by that run. -/
def exR6 : GIDCollectionPrimitive := (exRun6.toOption.getD default).2

/-- Witness for C6: one container is created for GID 1; `get_node`
resolves thread 0 to the thread-0 replica and gives different nodes for
threads 0 and 1. -/
theorem sibling_allocation_spec_witness :
    exSt6.local_nodes.nodes.length = 1 ∧
    get_node (exK 1 0 2 0) exSt6.local_nodes 1 ((0 : Nat) : Int) =
      .ok (sibling_member (exK 1 0 2 0) 5 1 0) ∧
    get_node (exK 1 0 2 0) exSt6.local_nodes 1 ((0 : Nat) : Int) ≠
      get_node (exK 1 0 2 0) exSt6.local_nodes 1 ((1 : Nat) : Int) := by
  obtain ⟨h1, h2, h3, h4, h5⟩ := sibling_allocation_spec (exK 1 0 2 0) {} 5 1
    exSt6 exR6 (by decide) (by decide) (by decide) (by decide) (by decide)
    (by decide) rfl
  exact ⟨h1.trans rfl, h3 1 (by decide) (by decide) 0 (by decide),
    h4 1 (by decide) (by decide) 0 1 (by decide) (by decide) (by decide)⟩

/-- Worker `t` collects an entry when it is a sibling container (one
replica for every worker) or a plain node owned by thread `t`. -/
def owns (t : Nat) (e : Entry) : Bool :=
  decide (0 < e.siblings.length) || (e.base.thr == t)

/-- The length of a worker's rebuilt list is the number of registry
entries it collects. -/
theorem build_thread_aux_length (t : Nat) : ∀ (l : List Entry)
    (acc accw : List BaseNode),
    (build_thread_aux t l acc accw).1.length = acc.length + l.countP (owns t) := by
  intro l
  induction l with
  | nil => intro acc accw; simp [build_thread_aux]
  | cons e rest ih =>
    intro acc accw
    rw [build_thread_aux]
    by_cases hs : 0 < e.siblings.length
    · rw [if_pos hs, ih, List.countP_cons_of_pos]
      · simp only [List.length_append, List.length_cons, List.length_nil]
        omega
      · simp [owns, hs]
    · rw [if_neg hs]
      by_cases ht : e.base.thr = t
      · rw [if_pos ht, ih, List.countP_cons_of_pos]
        · simp only [List.length_append, List.length_cons, List.length_nil]
          omega
        · simp [owns, ht]
      · rw [if_neg ht, ih, List.countP_cons_of_neg]
        simp only [owns, Bool.or_eq_true, decide_eq_true_eq, beq_iff_eq]
        push_neg
        exact ⟨by omega, ht⟩

/-- Stamping replica indices preserves the replica count. -/
theorem set_sib_lids_length (counts : List Nat) : ∀ (t : Nat)
    (l : List BaseNode), (set_sib_lids counts t l).length = l.length := by
  intro t l
  induction l generalizing t with
  | nil => rfl
  | cons s rest ih =>
    rw [set_sib_lids]
    by_cases hc : t < counts.length
    · rw [if_pos hc, List.length_cons, List.length_cons, ih]
    · rw [if_neg hc, List.length_cons, List.length_cons, ih]

/-- The registry-side index assignment preserves which worker collects
each entry. -/
theorem assign_lids_go_countP (t : Nat) : ∀ (l : List Entry) (counts : List Nat),
    (assign_lids_go counts l).countP (owns t) = l.countP (owns t) := by
  intro l
  induction l with
  | nil => intro counts; rfl
  | cons e rest ih =>
    intro counts
    rw [assign_lids_go]
    by_cases hs : 0 < e.siblings.length
    · rw [if_pos hs]
      have howns : owns t { e with siblings := set_sib_lids counts 0 e.siblings } =
          owns t e := by
        simp [owns, set_sib_lids_length]
      by_cases ho : owns t e = true
      · rw [List.countP_cons_of_pos _ _ (by rw [howns]; exact ho),
          List.countP_cons_of_pos _ _ ho, ih]
      · rw [List.countP_cons_of_neg _ _ (by rw [howns]; exact ho),
          List.countP_cons_of_neg _ _ ho, ih]
    · rw [if_neg hs]
      by_cases ht : e.base.thr < counts.length
      · rw [if_pos ht]
        have howns : owns t { e with base := { e.base with
            thread_lid := counts.getD e.base.thr 0 } } = owns t e := by
          simp [owns]
        by_cases ho : owns t e = true
        · rw [List.countP_cons_of_pos _ _ (by rw [howns]; exact ho),
            List.countP_cons_of_pos _ _ ho, ih]
        · rw [List.countP_cons_of_neg _ _ (by rw [howns]; exact ho),
            List.countP_cons_of_neg _ _ ho, ih]
      · rw [if_neg ht]
        by_cases ho : owns t e = true
        · rw [List.countP_cons_of_pos _ _ ho, List.countP_cons_of_pos _ _ ho, ih]
        · rw [List.countP_cons_of_neg _ _ ho, List.countP_cons_of_neg _ _ ho, ih]

/-- The registry-side index assignment preserves the entry count. -/
theorem assign_lids_go_length : ∀ (l : List Entry) (counts : List Nat),
    (assign_lids_go counts l).length = l.length := by
  intro l
  induction l with
  | nil => intro counts; rfl
  | cons e rest ih =>
    intro counts
    rw [assign_lids_go]
    by_cases hs : 0 < e.siblings.length
    · rw [if_pos hs, List.length_cons, List.length_cons, ih]
    · rw [if_neg hs]
      by_cases ht : e.base.thr < counts.length
      · rw [if_pos ht, List.length_cons, List.length_cons, ih]
      · rw [if_neg ht, List.length_cons, List.length_cons, ih]

/-- Registering a batch of locally materialized entries appends them to
the registry (`add_local_node` in a loop). -/
def add_entries (st : NodeManager) (new : List Entry) : NodeManager :=
  { st with local_nodes := new.foldl LocalNodes.add_local_node st.local_nodes }

/-- Folding `add_local_node` appends the new entries in order. -/
theorem fold_add_local_nodes : ∀ (new : List Entry) (r : LocalNodes),
    (new.foldl LocalNodes.add_local_node r).nodes = r.nodes ++ new := by
  intro new
  induction new with
  | nil => intro r; simp
  | cons e rest ih =>
    intro r
    rw [List.foldl_cons, ih]
    simp [LocalNodes.add_local_node]

/-- The explicit result of a view-cache rebuild when the staleness
guard fires. -/
theorem ensure_valid_rebuild (K : Kernel) (st : NodeManager)
    (h : ¬ st.size = st.nodes_vec_network_size) :
    ensure_valid_thread_local_ids K st = { st with
      local_nodes := { st.local_nodes with
        nodes := assign_lids K.n_threads st.local_nodes.nodes },
      nodes_vec := ((List.range K.n_threads).map
        (fun t => build_thread_aux t st.local_nodes.nodes [] [])).map
          (fun p => p.1),
      wfr_nodes_vec := ((List.range K.n_threads).map
        (fun t => build_thread_aux t st.local_nodes.nodes [] [])).map
          (fun p => p.2),
      nodes_vec_network_size := (assign_lids K.n_threads st.local_nodes.nodes).length,
      wfr_is_used := ((List.range K.n_threads).map
        (fun t => build_thread_aux t st.local_nodes.nodes [] [])).any
          (fun p => ! p.2.isEmpty) } := by
  unfold ensure_valid_thread_local_ids
  rw [if_neg h]

/-- C7.  The view cache is rebuilt only when the registry size differs
from the size recorded at the last rebuild (otherwise the call is the
identity); two consecutive calls without growth in between leave the
state of the second call unchanged (idempotence); and a call made after
locally materialized entries were registered strictly grows at least
one worker's list. -/
theorem ensure_valid_cache_spec :
    (∀ (K : Kernel) (st : NodeManager), st.size = st.nodes_vec_network_size →
      ensure_valid_thread_local_ids K st = st) ∧
    (∀ (K : Kernel) (st : NodeManager),
      ensure_valid_thread_local_ids K (ensure_valid_thread_local_ids K st) =
        ensure_valid_thread_local_ids K st) ∧
    (∀ (K : Kernel) (st : NodeManager) (new : List Entry), 0 < K.n_threads →
      ¬ st.size = st.nodes_vec_network_size → new ≠ [] →
      (∀ e ∈ new, 0 < e.siblings.length ∨ e.base.thr < K.n_threads) →
      ∃ t, t < K.n_threads ∧
        ((ensure_valid_thread_local_ids K (add_entries
            (ensure_valid_thread_local_ids K st) new)).nodes_vec.getD t []).length >
          ((ensure_valid_thread_local_ids K st).nodes_vec.getD t []).length) := by
  have hnoop : ∀ (K : Kernel) (st : NodeManager),
      st.size = st.nodes_vec_network_size →
      ensure_valid_thread_local_ids K st = st := by
    intro K st h
    unfold ensure_valid_thread_local_ids
    rw [if_pos h]
  have hvalid : ∀ (K : Kernel) (st : NodeManager),
      (ensure_valid_thread_local_ids K st).size =
        (ensure_valid_thread_local_ids K st).nodes_vec_network_size := by
    intro K st
    by_cases h : st.size = st.nodes_vec_network_size
    · rw [hnoop K st h]
      exact h
    · rw [ensure_valid_rebuild K st h]
      rfl
  refine ⟨hnoop, fun K st => hnoop K _ (hvalid K st), ?_⟩
  intro K st new hnt hstale hne hown
  have hlen : ∀ (X : NodeManager), ¬ X.size = X.nodes_vec_network_size →
      ∀ t, t < K.n_threads →
      ((ensure_valid_thread_local_ids K X).nodes_vec.getD t []).length =
        X.local_nodes.nodes.countP (owns t) := by
    intro X hX t ht
    rw [ensure_valid_rebuild K X hX]
    show ((((List.range K.n_threads).map
      (fun u => build_thread_aux u X.local_nodes.nodes [] [])).map
        (fun p => p.1)).getD t []).length = _
    rw [List.map_map, List.range_eq_range',
      getD_map_range' _ _ K.n_threads 0 t ht]
    show (build_thread_aux (0 + t) X.local_nodes.nodes [] []).1.length = _
    rw [Nat.zero_add, build_thread_aux_length]
    simp
  have hst1nodes : (ensure_valid_thread_local_ids K st).local_nodes.nodes =
      assign_lids K.n_threads st.local_nodes.nodes := by
    rw [ensure_valid_rebuild K st hstale]
  have hX2nodes : (add_entries (ensure_valid_thread_local_ids K st)
      new).local_nodes.nodes =
      assign_lids K.n_threads st.local_nodes.nodes ++ new := by
    show ((new.foldl LocalNodes.add_local_node
      (ensure_valid_thread_local_ids K st).local_nodes)).nodes = _
    rw [fold_add_local_nodes, hst1nodes]
  have hstale2 : ¬ (add_entries (ensure_valid_thread_local_ids K st) new).size =
      (add_entries (ensure_valid_thread_local_ids K st) new).nodes_vec_network_size := by
    have hs : (add_entries (ensure_valid_thread_local_ids K st) new).size =
        (assign_lids K.n_threads st.local_nodes.nodes).length + new.length := by
      show (add_entries (ensure_valid_thread_local_ids K st)
        new).local_nodes.nodes.length = _
      rw [hX2nodes, List.length_append]
    have hr : (add_entries (ensure_valid_thread_local_ids K st)
        new).nodes_vec_network_size =
        (assign_lids K.n_threads st.local_nodes.nodes).length := by
      show (ensure_valid_thread_local_ids K st).nodes_vec_network_size = _
      rw [ensure_valid_rebuild K st hstale]
    have hpos : 0 < new.length := List.length_pos.mpr hne
    rw [hs, hr]
    omega
  have hcountAssign : ∀ t : Nat,
      (assign_lids K.n_threads st.local_nodes.nodes).countP (owns t) =
        st.local_nodes.nodes.countP (owns t) := by
    intro t
    unfold assign_lids
    exact assign_lids_go_countP t _ _
  -- choose a worker that collects the first new entry
  obtain ⟨e, rest, rfl⟩ : ∃ e rest, new = e :: rest := by
    cases new with
    | nil => exact absurd rfl hne
    | cons e rest => exact ⟨e, rest, rfl⟩
  have hpick : ∃ t, t < K.n_threads ∧ owns t e = true := by
    rcases hown e (List.mem_cons_self e rest) with hsib | hthr
    · exact ⟨0, hnt, by simp [owns, hsib]⟩
    · exact ⟨e.base.thr, hthr, by simp [owns]⟩
  obtain ⟨t, ht, howns⟩ := hpick
  refine ⟨t, ht, ?_⟩
  rw [hlen st hstale t ht, hlen _ hstale2 t ht, hX2nodes, List.countP_append,
    hcountAssign t]
  have hcpos : 0 < (e :: rest).countP (owns t) := by
    rw [List.countP_pos_iff]
    exact ⟨e, List.mem_cons_self e rest, howns⟩
  omega

/-- One-thread kernel for exercising the view cache. -/
def exK7 : Kernel := exK 1 0 1 0

/-- A state whose cache is stale: one registry entry, recorded size
zero. -/
def exStB : NodeManager := { local_nodes := exPlainReg }

/-- A freshly materialized plain entry for GID 2 on thread 0. -/
def exNew7 : Entry := { base := { gid := 2, model_id := 4, thr := 0, vp := 0 } }

/-- Witness for C7: on a valid cache the call is the identity, a second
call after a rebuild is a no-op, and adding one local entry makes the
next rebuild grow worker 0's list. -/
theorem ensure_valid_cache_spec_witness :
    ensure_valid_thread_local_ids exK7 {} = {} ∧
    ensure_valid_thread_local_ids exK7 (ensure_valid_thread_local_ids exK7 exStB) =
      ensure_valid_thread_local_ids exK7 exStB ∧
    ((ensure_valid_thread_local_ids exK7 (add_entries
        (ensure_valid_thread_local_ids exK7 exStB)
        [exNew7])).nodes_vec.getD 0 []).length >
      ((ensure_valid_thread_local_ids exK7 exStB).nodes_vec.getD 0 []).length := by
  obtain ⟨t, ht, hgt⟩ := ensure_valid_cache_spec.2.2 exK7 exStB [exNew7]
    (by decide) (by decide) (by decide) (by decide)
  have hnt1 : exK7.n_threads = 1 := by decide
  have ht0 : t = 0 := by omega
  subst ht0
  exact ⟨ensure_valid_cache_spec.1 exK7 {} (by decide),
    ensure_valid_cache_spec.2.1 exK7 exStB, hgt⟩

end Nest
